import Mathlib

/-!
Verification of the segment layer of the `erayon/qdrant` repository:
shallow embedding of the proxy segment, segment builder, map index and
numeric index, together with theorems settling the specification claims.

Conventions of the embedding:
* machine integers (`u32` offsets, `u64` sequence numbers) are `Nat`;
  `i64` payload values are `Int`;
* external point ids (`PointIdType`, a numeric-or-UUID tagged variant that
  the code only compares for equality and hashes) are `Nat` tokens;
* vectors and payloads are opaque `Nat` tokens wherever the modelled code
  only copies them around without inspecting them;
* fallible Rust functions returning `OperationResult` become `Except` /
  `Option` values; `OperationError` kinds are collapsed to the ones the
  claims distinguish.
-/

namespace QdrantModel

/-- `PointOffsetType` (`u32` internal offset) as a `Nat`. -/
abbrev PointOffset := Nat

/-- `u32::MAX`, used by `NumericIndex::filter` as the offset of an
encoded start bound. -/
def OFFSET_MAX : Nat := 4294967295

/-! ## Map index key encoding (map_index.rs, `encode_db_record` /
`decode_db_record`)

`MapIndex::encode_db_record` is `format!("{}/{}", value, idx)`;
`decode_db_record` finds the **last** `/`, fails on a trailing separator,
parses the left part with `N::from_str` and the right part with
`u32::from_str`.  Strings are modelled as `List Char`.  The decimal
rendering of `u32`/`i64` (`Display`) and the decimal parsers (`FromStr`)
are standard-library functions, embedded below as `natChars` / `parseNat`
(digits only) and `intChars` / `parseInt` (optional sign, then digits). -/

/-- Decimal digits of a natural number, most significant first:
the embedding of `Display for u32`. -/
def natChars (n : Nat) : List Char :=
  if h : n < 10 then [Char.ofNat (48 + n)]
  else natChars (n / 10) ++ [Char.ofNat (48 + n % 10)]
  decreasing_by
    have h10 : 10 ≤ n := Nat.le_of_not_lt h
    exact Nat.div_lt_self (Nat.lt_of_lt_of_le (by decide) h10) (by decide)

/-- Decimal rendering of an `i64`: optional minus sign, then digits
(the embedding of `Display for i64`). -/
def intChars (i : Int) : List Char :=
  if i < 0 then '-' :: natChars (-i).toNat else natChars i.toNat

/-- Is `c` an ASCII decimal digit? -/
def isDigitCh (c : Char) : Bool := 48 ≤ c.toNat && c.toNat ≤ 57

/-- The embedding of `u32::from_str`: accepts a non-empty all-digit
string.  (The Rust parser also accepts a leading `+` and checks the
`u32` range; neither matters for round-trips of rendered values.) -/
def parseNat (s : List Char) : Option Nat :=
  if s.isEmpty then none
  else s.foldl (fun acc c =>
    acc.bind (fun a => if isDigitCh c then some (a * 10 + (c.toNat - 48)) else none))
    (some 0)

/-- The embedding of `i64::from_str`: an optional sign, then digits. -/
def parseInt (s : List Char) : Option Int :=
  match s with
  | [] => none
  | c :: rest =>
    if c = '-' then (parseNat rest).map (fun n => -(n : Int))
    else if c = '+' then (parseNat rest).map (fun n => (n : Int))
    else (parseNat (c :: rest)).map (fun n => (n : Int))

/-- Position of the **last** `'/'` in a string, the embedding of
`str::rfind('/')`. -/
def lastSlashPos : List Char → Option Nat
  | [] => none
  | c :: cs =>
    match lastSlashPos cs with
    | some i => some (i + 1)
    | none => if c = '/' then some 0 else none

/-- `MapIndex::<String>::encode_db_record`. -/
def encodeDbRecordStr (value : List Char) (idx : PointOffset) : List Char :=
  value ++ '/' :: natChars idx

/-- `MapIndex::<IntPayloadType>::encode_db_record`. -/
def encodeDbRecordInt (value : Int) (idx : PointOffset) : List Char :=
  intChars value ++ '/' :: natChars idx

/-- `MapIndex::decode_db_record`, generic in the value parser:
locate the last `/`, reject a trailing separator, parse both sides.
`none` stands for the `ServiceError` the Rust code returns. -/
def decodeDbRecordWith {N : Type} (parseValue : List Char → Option N)
    (s : List Char) : Option (N × PointOffset) :=
  match lastSlashPos s with
  | none => none
  | some p =>
    if p = s.length - 1 then none
    else
      match parseValue (s.take p), parseNat (s.drop (p + 1)) with
      | some v, some idx => some (v, idx)
      | _, _ => none

/-- `MapIndex::<String>::decode_db_record` (String `FromStr` never fails). -/
def decodeDbRecordStr (s : List Char) : Option (List Char × PointOffset) :=
  decodeDbRecordWith (fun v => some v) s

/-- `MapIndex::<IntPayloadType>::decode_db_record`. -/
def decodeDbRecordInt (s : List Char) : Option (Int × PointOffset) :=
  decodeDbRecordWith parseInt s

/-! ## Map index `payload_blocks` (map_index.rs)

The in-memory `map : HashMap<N, BTreeSet<PointOffsetType>>` is embedded
as an association list from values to posting lists.  The two
`PayloadFieldIndex` impls differ in the threshold comparison:
`MapIndex<String>` keeps values with `point_ids.len() > threshold`,
`MapIndex<IntPayloadType>` keeps values with
`point_ids.len() >= threshold`. -/

/-- A `PayloadBlockCondition` is determined by the matched value and the
reported cardinality. -/
abbrev PayloadBlock (N : Type) := N × Nat

/-- `<MapIndex<String> as PayloadFieldIndex>::payload_blocks`
(the `key` argument only decorates the emitted condition and is dropped). -/
def payloadBlocksStr (threshold : Nat) (map : List (List Char × List PointOffset)) :
    List (PayloadBlock (List Char)) :=
  (map.filter (fun e => decide (e.2.length > threshold))).map
    (fun e => (e.1, e.2.length))

/-- `<MapIndex<IntPayloadType> as PayloadFieldIndex>::payload_blocks`. -/
def payloadBlocksInt (threshold : Nat) (map : List (Int × List PointOffset)) :
    List (PayloadBlock Int) :=
  (map.filter (fun e => decide (e.2.length ≥ threshold))).map
    (fun e => (e.1, e.2.length))

/-! ## Numeric index (numeric_index.rs, `NumericIndex::filter`)

The index keeps `map : BTreeMap<Vec<u8>, u32>` whose keys are produced by
the order-preserving encodings of key_encoding.rs.

Modelled from the spec: key_encoding.rs is not in the tree; §6 of the
spec pins the encodings bit-exactly and states that they are strictly
order-preserving on `(value, offset)` pairs (`encode(a,_) < encode(b,_)`
iff `a < b`, with the big-endian `u32` offset breaking ties).  The
encoded key is therefore represented by the pair `(value, offset)`
itself, ordered lexicographically; `f64` values (which the code only
ever compares) are represented by exact rationals, which is
order-faithful for every finite float. -/

/-- An encoded numeric-index key: the `(value, offset)` pair underlying
the order-preserving byte encoding. -/
abbrev NumKey := ℚ × Nat

/-- Strict lexicographic order on encoded keys: the byte-string order of
the spec's encoding. -/
def keyLt (a b : NumKey) : Bool := a.1 < b.1 || (a.1 == b.1 && a.2 < b.2)

/-- Non-strict lexicographic order on encoded keys. -/
def keyLe (a b : NumKey) : Bool := a.1 < b.1 || (a.1 == b.1 && a.2 ≤ b.2)

/-- `std::ops::Bound` over encoded keys. -/
inductive KeyBound where
  | included (k : NumKey)
  | excluded (k : NumKey)
  | unbounded

/-- `segment::types::Range`: the four optional `f64` bounds of a range
condition. -/
structure RangeCond where
  gt : Option ℚ := none
  gte : Option ℚ := none
  lt : Option ℚ := none
  lte : Option ℚ := none

/-- The start bound computed by `NumericIndex::filter`: `gt` takes
priority over `gte`; an excluded start uses offset `u32::MAX`, an
included start offset `u32::MIN`. -/
def startBound (r : RangeCond) : KeyBound :=
  match r.gt with
  | some v => .excluded (v, OFFSET_MAX)
  | none =>
    match r.gte with
    | some v => .included (v, 0)
    | none => .unbounded

/-- The end bound computed by `NumericIndex::filter`: `lt` takes
priority over `lte`; an excluded end uses offset `u32::MIN`, an included
end offset `u32::MAX`. -/
def endBound (r : RangeCond) : KeyBound :=
  match r.lt with
  | some v => .excluded (v, 0)
  | none =>
    match r.lte with
    | some v => .included (v, OFFSET_MAX)
    | none => .unbounded

/-- Does key `k` lie above the start bound (`BTreeMap::range` lower
side)? -/
def satStart : KeyBound → NumKey → Bool
  | .included s, k => keyLe s k
  | .excluded s, k => keyLt s k
  | .unbounded, _ => true

/-- Does key `k` lie below the end bound (`BTreeMap::range` upper
side)? -/
def satEnd : KeyBound → NumKey → Bool
  | .included e, k => keyLe k e
  | .excluded e, k => keyLt k e
  | .unbounded, _ => true

/-- The degenerate-range guard of `NumericIndex::filter`: both bounds
excluded and equal, or start key greater than end key (the cases where
`BTreeMap::range` would panic); the code returns an empty iterator
without touching the map. -/
def degenerateBounds : KeyBound → KeyBound → Bool
  | .excluded s, .excluded e => s == e || keyLt e s
  | .excluded s, .included e => keyLt e s
  | .included s, .excluded e => keyLt e s
  | .included s, .included e => keyLt e s
  | _, _ => false

/-- The numeric index `map`, embedded as its list of `(value, offset)`
keys in ascending key order (the stored map value equals the key's
offset, see `add_to_map`). -/
abbrev NumMap := List NumKey

/-- `NumericIndex::filter` on a range condition: compute the two bounds,
return empty on a degenerate range, otherwise scan the map between the
bounds and yield the stored offsets in ascending key order. -/
def numFilter (r : RangeCond) (m : NumMap) : List PointOffset :=
  let sb := startBound r
  let eb := endBound r
  if degenerateBounds sb eb then []
  else (m.filter (fun k => satStart sb k && satEnd eb k)).map (fun k => k.2)

/-- Lower side of semantic range membership: `gt` exclusive, `gte`
inclusive, with the same priority the code gives a doubly-specified
side. -/
def lowerOk (r : RangeCond) (v : ℚ) : Bool :=
  match r.gt with
  | some g => decide (g < v)
  | none =>
    match r.gte with
    | some g => decide (g ≤ v)
    | none => true

/-- Upper side of semantic range membership: `lt` exclusive, `lte`
inclusive. -/
def upperOk (r : RangeCond) (v : ℚ) : Bool :=
  match r.lt with
  | some l => decide (v < l)
  | none =>
    match r.lte with
    | some l => decide (v ≤ l)
    | none => true

/-- Semantic range membership for a value, as the claim states it. -/
def inRange (r : RangeCond) (v : ℚ) : Bool := lowerOk r v && upperOk r v

/-! ## Plain segment (spec-modelled) and proxy segment (proxy_segment.rs)

`Segment` itself (lib/segment/src/segment.rs) is not in the tree; the
proxy only uses it through the `SegmentEntry` contract. -/

/-- External point id (`PointIdType`): a numeric-or-UUID tagged variant
that the proxy only compares for equality, embedded as a `Nat` token. -/
abbrev PointId := Nat

/-- Opaque vector data (`Vec<VectorElementType>`): never inspected by
the modelled code, only copied; embedded as a token. -/
abbrev VecData := Nat

/-- Opaque payload data (`Payload`): never inspected by the modelled
code, only copied; embedded as a token. -/
abbrev PayloadData := Nat

/-- A filter, abstracted by its satisfaction predicate on the point's
external id and payload (the filter AST of `segment::types::Filter` is
only ever evaluated by the segments). -/
abbrev FilterPred := PointId → PayloadData → Bool

/-- Per-point data held by a plain segment: vector, payload and the
point's last-write `op_num`. -/
structure SegPoint where
  vec : VecData
  payload : PayloadData
  ptVersion : Nat
deriving DecidableEq, Repr

/-- Modelled from the spec: a plain `Segment` (segment.rs is not in the
tree), §3/§4.1: an id-addressed store of points, the segment version
(max `op_num` applied) and the indexed-field map.  `entries` is an
association list with pairwise-distinct ids. -/
structure MSegment where
  entries : List (PointId × SegPoint)
  version : Nat
  indexedFields : List (Nat × Nat)
deriving DecidableEq, Repr

/-- `Segment::has_point` (spec §4.1). -/
def segHasPoint (s : MSegment) (id : PointId) : Bool :=
  (s.entries.lookup id).isSome

/-- `Segment::points_count` (spec §4.1). -/
def segPointsCount (s : MSegment) : Nat := s.entries.length

/-- `Segment::vector` (spec §4.1). -/
def segVector (s : MSegment) (id : PointId) : Option VecData :=
  (s.entries.lookup id).map (fun p => p.vec)

/-- `Segment::payload` (spec §4.1). -/
def segPayload (s : MSegment) (id : PointId) : Option PayloadData :=
  (s.entries.lookup id).map (fun p => p.payload)

/-- Replace the entry of `id` in an association list (helper). -/
def setEntry (l : List (PointId × SegPoint)) (id : PointId) (p : SegPoint) :
    List (PointId × SegPoint) :=
  l.map (fun e => if e.1 = id then (id, p) else e)

/-- Modelled from the spec: `Segment::upsert_point`, §4.1 ordering rule
(stored point version greater or equal means no-op with
`changed = false`); otherwise the vector is replaced (payload kept), the
point version becomes `op_num` and the segment version advances. -/
def segUpsertPoint (op : Nat) (id : PointId) (v : VecData) (s : MSegment) :
    Bool × MSegment :=
  match s.entries.lookup id with
  | some p =>
    if op ≤ p.ptVersion then (false, s)
    else (true, { s with entries := setEntry s.entries id { p with vec := v, ptVersion := op },
                         version := max s.version op })
  | none =>
    (true, { s with entries := (id, ⟨v, 0, op⟩) :: s.entries,
                    version := max s.version op })

/-- Modelled from the spec: `Segment::set_full_payload`, §4.1 ordering
rule; replaces the whole payload of an existing point. -/
def segSetFullPayload (op : Nat) (id : PointId) (pl : PayloadData) (s : MSegment) :
    Bool × MSegment :=
  match s.entries.lookup id with
  | some p =>
    if op ≤ p.ptVersion then (false, s)
    else (true, { s with entries := setEntry s.entries id { p with payload := pl, ptVersion := op },
                         version := max s.version op })
  | none => (false, s)

/-- Modelled from the spec: `Segment::delete_point`, §4.1 ordering rule;
removes the point when present with an older version. -/
def segDeletePoint (op : Nat) (id : PointId) (s : MSegment) : Bool × MSegment :=
  match s.entries.lookup id with
  | some p =>
    if op ≤ p.ptVersion then (false, s)
    else (true, { s with entries := s.entries.filter (fun e => !(e.1 = id : Bool)),
                         version := max s.version op })
  | none => (false, s)

/-- The `(min, exp, max)` cardinality triple with its primary clauses
(`CardinalityEstimation`); primary clauses are abstract tokens. -/
structure CardEst where
  primaryClauses : List Nat
  min : Nat
  exp : Nat
  max : Nat
deriving DecidableEq, Repr

/-- Satisfaction of an optional filter by an id/payload pair (`None`
matches everything). -/
def filtMatch (f : Option FilterPred) (id : PointId) (pl : PayloadData) : Bool :=
  match f with
  | none => true
  | some φ => φ id pl

/-- Modelled from the spec: `Segment::estimate_points_count`, §4.1 — a
cardinality triple bounding the matches; the model returns the exact
count of stored points matching the filter (a sound instance). -/
def segEstimatePointsCount (s : MSegment) (f : Option FilterPred) : CardEst :=
  let c := (s.entries.filter (fun e => filtMatch f e.1 e.2.payload)).length
  ⟨[], c, c, c⟩

/-- Modelled from the spec: `Segment::create_field_index`, §4.1 ordering
rule against the segment version (stored greater or equal means no-op
`false`); otherwise the field is indexed (schema defaulted when absent)
and the segment version advances. -/
def segCreateFieldIndex (op : Nat) (key : Nat) (schema : Option Nat) (s : MSegment) :
    Bool × MSegment :=
  if s.version ≥ op then (false, s)
  else (true, { s with indexedFields := (key, schema.getD 0) ::
                         s.indexedFields.filter (fun e => !(e.1 = key : Bool)),
                       version := max s.version op })

/-- Modelled from the spec: `Segment::delete_field_index`, §4.1 ordering
rule against the segment version. -/
def segDeleteFieldIndex (op : Nat) (key : Nat) (s : MSegment) : Bool × MSegment :=
  if s.version ≥ op then (false, s)
  else (true, { s with indexedFields := s.indexedFields.filter (fun e => !(e.1 = key : Bool)),
                       version := max s.version op })

/-- Modelled from the spec: `Segment::delete_filtered`, §4.1 — removes
the matching points (per-point ordering rule) and returns how many were
removed. -/
def segDeleteFiltered (op : Nat) (f : FilterPred) (s : MSegment) : Nat × MSegment :=
  let gone := s.entries.filter (fun e => f e.1 e.2.payload && decide (e.2.ptVersion < op))
  (gone.length,
   { s with entries := s.entries.filter (fun e =>
       !(f e.1 e.2.payload && decide (e.2.ptVersion < op))),
            version := max s.version op })

/-- `ProxySegment` (proxy_segment.rs): the wrapped and write segments,
the shared `deleted_points` set (a duplicate-free list), the per-proxy
`deleted_points_count` counter, and the shared index-delta containers. -/
structure ProxyState where
  wrapped : MSegment
  write : MSegment
  deletedPoints : List PointId
  deletedPointsCount : Nat
  deletedIndexes : List Nat
  createdIndexes : List (Nat × Nat)
  lastFlushedVersion : Option Nat
deriving DecidableEq, Repr

/-- `ProxySegment::version`: max of the wrapped and write segment
versions. -/
def proxyVersion (s : ProxyState) : Nat := max s.wrapped.version s.write.version

/-- `HashSet::insert` on the modelled `deleted_points` list. -/
def insertId (l : List PointId) (id : PointId) : List PointId :=
  if id ∈ l then l else id :: l

/-- `ProxySegment::move_if_exists` (proxy_segment.rs:61): if the point
is not yet in `deleted_points` but exists in the wrapped segment, read
its vector and payload from the wrapped segment, insert the id into
`deleted_points`, bump `deleted_points_count`, and upsert vector and
full payload into the write segment. -/
def moveIfExists (op : Nat) (id : PointId) (s : ProxyState) : Bool × ProxyState :=
  if id ∈ s.deletedPoints then (false, s)
  else if !segHasPoint s.wrapped id then (false, s)
  else
    match s.wrapped.entries.lookup id with
    | none => (false, s)
    | some p =>
      let s₁ := { s with deletedPoints := insertId s.deletedPoints id,
                         deletedPointsCount := s.deletedPointsCount + 1 }
      let w₁ := (segUpsertPoint op id p.vec s₁.write).2
      let w₂ := (segSetFullPayload op id p.payload w₁).2
      (true, { s₁ with write := w₂ })

/-- `ProxySegment::upsert_point`: move-if-exists, then upsert into the
write segment. -/
def proxyUpsertPoint (op : Nat) (id : PointId) (v : VecData) (s : ProxyState) :
    Bool × ProxyState :=
  let s₁ := (moveIfExists op id s).2
  let (r, w) := segUpsertPoint op id v s₁.write
  (r, { s₁ with write := w })

/-- `ProxySegment::delete_point` (proxy_segment.rs:211): insert into the
shared `deleted_points` set when the wrapped segment has the point
(without touching `deleted_points_count`), and delete from the write
segment. -/
def proxyDeletePoint (op : Nat) (id : PointId) (s : ProxyState) : Bool × ProxyState :=
  let wasDeleted := segHasPoint s.wrapped id
  let s₁ := if wasDeleted then { s with deletedPoints := insertId s.deletedPoints id } else s
  let (r, w) := segDeletePoint op id s₁.write
  (wasDeleted || r, { s₁ with write := w })

/-- `ProxySegment::set_full_payload`. -/
def proxySetFullPayload (op : Nat) (id : PointId) (pl : PayloadData) (s : ProxyState) :
    Bool × ProxyState :=
  let s₁ := (moveIfExists op id s).2
  let (r, w) := segSetFullPayload op id pl s₁.write
  (r, { s₁ with write := w })

/-- `ProxySegment::has_point`: write-segment hit if the id is deleted,
otherwise write-segment hit or wrapped hit. -/
def proxyHasPoint (s : ProxyState) (id : PointId) : Bool :=
  if id ∈ s.deletedPoints then segHasPoint s.write id
  else segHasPoint s.write id || segHasPoint s.wrapped id

/-- `ProxySegment::payload`: read from the write segment when the id is
deleted, otherwise prefer the write segment, falling back to wrapped. -/
def proxyPayload (s : ProxyState) (id : PointId) : Option PayloadData :=
  if id ∈ s.deletedPoints then segPayload s.write id
  else if segHasPoint s.write id then segPayload s.write id
  else segPayload s.wrapped id

/-- `ProxySegment::points_count` (proxy_segment.rs:357):
`wrapped.count - deleted_points_count + write.count` (the subtraction is
on `usize`; `Nat` subtraction mirrors it on the intended in-range
states). -/
def proxyPointsCount (s : ProxyState) : Nat :=
  segPointsCount s.wrapped - s.deletedPointsCount + segPointsCount s.write

/-- `ProxySegment::estimate_points_count` (proxy_segment.rs:368): the
wrapped segment's estimate with `min`, `exp` and `max` each reduced by
`deleted_points_count` using saturating subtraction, and the primary
clauses cleared.  The write segment is not consulted. -/
def proxyEstimatePointsCount (s : ProxyState) (f : Option FilterPred) : CardEst :=
  let w := segEstimatePointsCount s.wrapped f
  ⟨[], w.min - s.deletedPointsCount, w.exp - s.deletedPointsCount,
    w.max - s.deletedPointsCount⟩

/-- `ProxySegment::delete_field_index` (proxy_segment.rs:456): no-op
returning `false` when the proxy version exceeds `op_num` (strict
comparison in the code); otherwise record the delta and delegate to the
write segment. -/
def proxyDeleteFieldIndex (op : Nat) (key : Nat) (s : ProxyState) : Bool × ProxyState :=
  if proxyVersion s > op then (false, s)
  else
    let s₁ := { s with deletedIndexes := key :: s.deletedIndexes.filter (fun k => !(k = key : Bool)),
                       createdIndexes := s.createdIndexes.filter (fun e => !(e.1 = key : Bool)) }
    let (r, w) := segDeleteFieldIndex op key s₁.write
    (r, { s₁ with write := w })

/-- `ProxySegment::create_field_index` (proxy_segment.rs:468): no-op
returning `false` when the proxy version exceeds `op_num` (strict
comparison in the code); otherwise delegate to the write segment, read
back the schema it recorded, and mirror the delta into
`created_indexes` / `deleted_indexes`. -/
def proxyCreateFieldIndex (op : Nat) (key : Nat) (schema : Option Nat) (s : ProxyState) :
    Bool × ProxyState :=
  if proxyVersion s > op then (false, s)
  else
    let w := (segCreateFieldIndex op key schema s.write).2
    match w.indexedFields.lookup key with
    | none => (false, { s with write := w })
    | some schemaType =>
      (true, { s with write := w,
                      createdIndexes := (key, schemaType) ::
                        s.createdIndexes.filter (fun e => !(e.1 = key : Bool)),
                      deletedIndexes := s.deletedIndexes.filter (fun k => !(k = key : Bool)) })

/-- `ProxySegment::delete_filtered` (proxy_segment.rs:515): delegate to
the write segment only. -/
def proxyDeleteFiltered (op : Nat) (f : FilterPred) (s : ProxyState) : Nat × ProxyState :=
  let (n, w) := segDeleteFiltered op f s.write
  (n, { s with write := w })

/-- Does the point `id`, seen through the proxy, exist and match the
optional filter (on its visible payload)? -/
def visibleMatch (s : ProxyState) (f : Option FilterPred) (id : PointId) : Bool :=
  proxyHasPoint s id &&
    match f with
    | none => true
    | some φ =>
      match proxyPayload s id with
      | some pl => φ id pl
      | none => false

/-- The number of points visible through the proxy that match the
filter: candidates are the ids of both backing segments (deduplicated),
kept when `has_point` holds and the visible payload satisfies the
filter. -/
def proxyActualMatches (s : ProxyState) (f : Option FilterPred) : Nat :=
  (((s.wrapped.entries.map (fun e => e.1)) ++
    (s.write.entries.map (fun e => e.1))).dedup.filter (visibleMatch s f)).length

/-! ## Sticky failure state (spec §4.1, tests/fail_recovery_test.rs)

Modelled from the spec: `Segment`'s `error_status` handling
(segment.rs is not in the tree); the clearing condition is pinned by the
repository's own test `test_insert_fail_recovery`, which shows that a
successful call with `op_num ≤ version` keeps the sticky state unless it
targets the recorded `point_id`. -/

/-- The error kinds the claims distinguish. -/
inductive OpErr where
  | cancelled
  | service
deriving DecidableEq, Repr

/-- `SegmentFailedState`: the recorded version and optional point id
(the stored error value itself is irrelevant to the claims). -/
structure FailedState where
  version : Nat
  pointId : Option PointId
deriving DecidableEq, Repr

/-- A segment together with its sticky `error_status`. -/
structure ESegment where
  seg : MSegment
  errorStatus : Option FailedState
deriving DecidableEq, Repr

/-- Modelled from the spec: the `Segment` mutation wrapper around
`set_payload` with the sticky-failure discipline of §4.1, behavior
pinned by tests/fail_recovery_test.rs:
* with a recorded failure and `op_num` greater than its version, the
  call is rejected with an error;
* otherwise the operation runs (here: set the payload of an existing
  point under the ordering rule; a missing point is an error);
* after a non-error result the sticky state is cleared exactly when the
  call targeted the recorded `point_id`. -/
def esegSetPayload (op : Nat) (id : PointId) (pl : PayloadData) (s : ESegment) :
    Except OpErr (Bool × ESegment) :=
  match s.errorStatus with
  | some fs =>
    if op > fs.version then .error .service
    else
      match s.seg.entries.lookup id with
      | none => .error .service
      | some p =>
        let res := if op ≤ p.ptVersion then (false, s.seg)
          else (true, { s.seg with
                          entries := setEntry s.seg.entries id
                            { p with payload := pl, ptVersion := op },
                          version := max s.seg.version op })
        let newStatus := if fs.pointId = some id then none else some fs
        .ok (res.1, { seg := res.2, errorStatus := newStatus })
  | none =>
    match s.seg.entries.lookup id with
    | none => .error .service
    | some p =>
      let res := if op ≤ p.ptVersion then (false, s.seg)
        else (true, { s.seg with
                        entries := setEntry s.seg.entries id
                          { p with payload := pl, ptVersion := op },
                        version := max s.seg.version op })
      .ok (res.1, { seg := res.2, errorStatus := none })

/-! ## Segment builder (segment_builder.rs)

The builder's collaborators (id tracker, vector storage, payload index)
live in modules that are not in the tree; they are embedded as the maps
the spec's data model describes (§3): a bidirectional external-id/offset
link map with per-point versions, an append-only vector store with a
tombstone set, and an offset-addressed payload store. -/

/-- The building segment owned by `SegmentBuilder`, together with the
collaborators `update_from` touches. -/
structure BSegment where
  version : Nat
  links : List (PointId × Nat)
  versions : List (PointId × Nat)
  vectors : List VecData
  deleted : List Nat
  payloads : List (Nat × PayloadData)
deriving DecidableEq, Repr

/-- The live internal offsets of a segment, in ascending order: what
`VectorStorage::iter_ids` yields. -/
def liveOffsets (s : BSegment) : List Nat :=
  (List.range s.vectors.length).filter (fun o => !(o ∈ s.deleted : Bool))

/-- `IdTracker::external_id` reversed lookup (offset to external id). -/
def externalOf (s : BSegment) (off : Nat) : Option PointId :=
  (s.links.find? (fun e => e.2 = off)).map (fun e => e.1)

/-- Update an association list at a key (helper). -/
def setAssoc (l : List (Nat × Nat)) (k v : Nat) : List (Nat × Nat) :=
  (k, v) :: l.filter (fun e => !(e.1 = k : Bool))

/-- One iteration of the `update_from` merge loop
(segment_builder.rs:70-111) for the pair `(newId, ext, extVersion, pl)`
(fresh target offset, source external id, source point version, source
payload), applied to the in-progress target `s`:
* id never seen: link it to `newId` with the source version and payload;
* seen with an older version: tombstone the old offset, re-link to
  `newId`, update version and payload;
* seen with a newer or equal version: tombstone `newId`. -/
def updateStep (s : BSegment) (newId : Nat) (ext : PointId) (extVersion : Nat)
    (pl : PayloadData) : BSegment :=
  match s.versions.lookup ext with
  | none =>
    { s with links := setAssoc s.links ext newId,
             versions := setAssoc s.versions ext extVersion,
             payloads := setAssoc s.payloads newId pl }
  | some existingVersion =>
    if existingVersion < extVersion then
      let existingInternal := (s.links.lookup ext).getD 0
      { s with deleted := existingInternal :: s.deleted,
               links := setAssoc s.links ext newId,
               versions := setAssoc s.versions ext extVersion,
               payloads := setAssoc s.payloads newId pl }
    else
      { s with deleted := newId :: s.deleted }

/-- The merge loop of `update_from`: fold over the zipped
`(new_offset, old_offset)` pairs, consulting the stop flag before each
pair and failing with `Cancelled` when it is set. -/
def updateLoop (stopped : Bool) (other : BSegment) :
    List (Nat × Nat) → BSegment → Except OpErr BSegment
  | [], s => .ok s
  | (newId, oldId) :: rest, s =>
    if stopped then .error .cancelled
    else
      match externalOf other oldId, other.vectors.get? oldId with
      | some ext, some _ =>
        let extVersion := (other.versions.lookup ext).getD 0
        let pl := (other.payloads.lookup oldId).getD 0
        updateLoop stopped other rest (updateStep s newId ext extVersion pl)
      | _, _ => .error .service

/-- `SegmentBuilder::update_from` (segment_builder.rs:52): advance the
version, bulk-copy the source's live vectors into a fresh contiguous
offset range, then run the merge loop over the
`(new_offset, old_offset)` pairs.  (The indexed-field union is tracked
on the builder, see `builderUpdateFrom`.) -/
def updateFrom (self other : BSegment) (stopped : Bool) : Except OpErr BSegment :=
  let start := self.vectors.length
  let live := liveOffsets other
  let s₀ : BSegment :=
    { self with version := max self.version other.version,
                vectors := self.vectors ++ live.map (fun o => other.vectors.getD o 0) }
  let pairs := (List.range' start live.length).zip live
  updateLoop stopped other pairs s₀

/-- `SegmentBuilder`: the building segment (consumed by `build`), the
paths and the accumulated indexed fields. -/
structure Builder where
  segment : Option BSegment
  indexedFields : List (Nat × Nat)
deriving DecidableEq, Repr

/-- `SegmentBuilder::update_from` at the builder level: merge the
segments, then union the source's indexed fields. -/
def builderUpdateFrom (b : Builder) (other : BSegment)
    (otherFields : List (Nat × Nat)) (stopped : Bool) : Except OpErr Builder :=
  match b.segment with
  | none => .error .service
  | some seg =>
    match updateFrom seg other stopped with
    | .error e => .error e
    | .ok seg' =>
      .ok { segment := some seg',
            indexedFields := otherFields.foldl (fun acc e => setAssoc acc e.1 e.2)
              b.indexedFields }

/-- The field-index loop of `SegmentBuilder::build`
(segment_builder.rs:129-136): build each accumulated field index, and
consult the stop flag after each one, failing with `Cancelled` when it
is set.  Building a field index on the raw segment is modelled as
recording the field. -/
def buildFieldsLoop (stopped : Bool) : List (Nat × Nat) → BSegment →
    Except OpErr BSegment
  | [], s => .ok s
  | _ :: rest, s =>
    if stopped then .error .cancelled
    else buildFieldsLoop stopped rest s

/-- The outcome of `SegmentBuilder::build` (segment_builder.rs:122): the
result, and whether the `temp_path → destination_path` rename was
performed.  The vector-index build, the flush and the final reopen of
the segment from the destination path (`load_segment`,
segment_builder.rs:148) are external collaborators abstracted by their
outcomes.  The rename happens only after the field indices, the vector
index and the flush succeed; the reopen runs **after** the rename, so
its failure yields an error with the new segment already visible at the
destination.  On a successful reopen the program returns the segment
read back from disk, which is the flushed built segment. -/
def build (b : Builder) (stopped : Bool)
    (vectorIndexOutcome flushOutcome loadOutcome : Except OpErr Unit) :
    Except OpErr BSegment × Bool :=
  match b.segment with
  | none => (.error .service, false)
  | some seg =>
    match buildFieldsLoop stopped b.indexedFields seg with
    | .error e => (.error e, false)
    | .ok seg' =>
      match vectorIndexOutcome with
      | .error e => (.error e, false)
      | .ok _ =>
        match flushOutcome with
        | .error e => (.error e, false)
        | .ok _ =>
          match loadOutcome with
          | .error e => (.error e, true)
          | .ok _ => (.ok seg', true)

/-- `point_version` on a building segment (id-tracker lookup). -/
def bPointVersion (s : BSegment) (ext : PointId) : Option Nat :=
  s.versions.lookup ext

/-- The vector a built segment exposes for an external id: the
vector-storage slot its link points at, provided it is not tombstoned. -/
def bVectorOf (s : BSegment) (ext : PointId) : Option VecData :=
  match s.links.lookup ext with
  | none => none
  | some off => if off ∈ s.deleted then none else s.vectors.get? off

/-- The payload a built segment exposes for an external id. -/
def bPayloadOf (s : BSegment) (ext : PointId) : Option PayloadData :=
  match s.links.lookup ext with
  | none => none
  | some off => s.payloads.lookup off

/-! ## Helpers over `Except` results -/

/-- Is the result `Ok`? -/
def exceptIsOk {α : Type} : Except OpErr α → Bool
  | .ok _ => true
  | .error _ => false

/-- The state reached by a successful `esegSetPayload` call. -/
def esegResultState : Except OpErr (Bool × ESegment) → Option ESegment
  | .ok r => some r.2
  | .error _ => none

/-- The spec's words for the proxy estimate (§4.2): "project wrapped's
cardinality triple down by `deleted_points_count` using saturating
subtraction" (primary clauses cleared). -/
def specProjectTriple (w : CardEst) (c : Nat) : CardEst :=
  ⟨[], w.min - c, w.exp - c, w.max - c⟩

/-! ## Concrete fixtures used by the claim theorems -/

/-- The rational `5/2`, standing for the float `2.5`. -/
def q25 : ℚ := ⟨5, 2, by decide, by decide⟩

/-- The rational `13/5`, standing for the float `2.6`. -/
def q26 : ℚ := ⟨13, 5, by decide, by decide⟩

/-- The numeric-index map of spec scenario 4: values
`[1,1,1,1,1,2,2.5,2.6,3]` at offsets `1..9`, in ascending key order. -/
def scenarioNumMap : NumMap :=
  [((1 : ℚ), 1), ((1 : ℚ), 2), ((1 : ℚ), 3), ((1 : ℚ), 4), ((1 : ℚ), 5),
   ((2 : ℚ), 6), (q25, 7), (q26, 8), ((3 : ℚ), 9)]

/-- An empty plain segment at version 0 (the fresh write segment of a
new proxy). -/
def emptySeg : MSegment := ⟨[], 0, []⟩

/-- A wrapped segment holding the single point `1` (vector token 10,
payload token 20, written at op 1). -/
def wrappedOne : MSegment := ⟨[(1, ⟨10, 20, 1⟩)], 1, []⟩

/-- A fresh proxy over `wrappedOne`. -/
def proxyOne : ProxyState := ⟨wrappedOne, emptySeg, [], 0, [], [], none⟩

/-- A wrapped segment at version 5 with no points (e.g. after its last
point was deleted at op 5). -/
def wrappedV5 : MSegment := ⟨[], 5, []⟩

/-- A fresh proxy over `wrappedV5`. -/
def proxyV5 : ProxyState := ⟨wrappedV5, emptySeg, [], 0, [], [], none⟩

/-- The segment of spec scenario 5 / fail_recovery_test.rs: points 1 and
2 upserted at op 1, then `error_status = {version: 2, point_id: 1}`. -/
def esegFail : ESegment :=
  ⟨⟨[(1, ⟨1, 0, 1⟩), (2, ⟨1, 0, 1⟩)], 1, []⟩, some ⟨2, some 1⟩⟩

/-- An empty building segment. -/
def emptyBSeg : BSegment := ⟨0, [], [], [], [], []⟩

/-- Builder-merge scenario, segment A: point `x = 42` at version 5,
vector token 100, payload token 200. -/
def segA : BSegment := ⟨5, [(42, 0)], [(42, 5)], [100], [], [(0, 200)]⟩

/-- Builder-merge scenario, segment B: point `x = 42` at version 3,
vector token 101, payload token 201. -/
def segB : BSegment := ⟨3, [(42, 0)], [(42, 3)], [101], [], [(0, 201)]⟩

/-- The target after merging `segA` into an empty builder segment. -/
def segAmerged : BSegment := ⟨5, [(42, 0)], [(42, 5)], [100], [], [(0, 200)]⟩

/-- The target after further merging `segB`: B's freshly copied vector
(offset 1) is tombstoned, A's data for point 42 is kept. -/
def mergedAB : BSegment := ⟨5, [(42, 0)], [(42, 5)], [100, 101], [1], [(0, 200)]⟩

/-- The external ids of the source's live offsets, in processing
order. -/
def liveExts (other : BSegment) : List PointId :=
  (liveOffsets other).map (fun o => (externalOf other o).getD 0)

/-- One iteration of the merge loop as a total function on the
in-progress target (the loop's error exits never fire when the source
is well-formed): resolve the pair's external id, source version and
payload, then apply `updateStep`. -/
def pairStep (other : BSegment) (s : BSegment) (p : Nat × Nat) : BSegment :=
  updateStep s p.1 ((externalOf other p.2).getD 0)
    ((other.versions.lookup ((externalOf other p.2).getD 0)).getD 0)
    ((other.payloads.lookup p.2).getD 0)

/-! # Theorems settling the claims -/

/-- C2: on the concrete failing input — a fresh proxy over a wrapped
segment holding point 1 — `ProxySegment::delete_point(100, 1)` inserts
the point into the shared `deleted_points` set but leaves
`deleted_points_count` at 0, so `points_count()` still reports 1
although `has_point(1)` is false.  This contradicts the claim (and the
field's own doc comment): the counter does not count this proxy's
contribution to `deleted_points`, and `points_count` does not reflect
the deletion. -/
theorem C2_delete_point_skips_counter :
    (proxyDeletePoint 100 1 proxyOne).2.deletedPoints = [1] ∧
    (proxyDeletePoint 100 1 proxyOne).2.deletedPointsCount = 0 ∧
    proxyPointsCount (proxyDeletePoint 100 1 proxyOne).2 = 1 ∧
    proxyHasPoint (proxyDeletePoint 100 1 proxyOne).2 1 = false := by
  decide

/-- C5 counterexample: a fresh proxy over a wrapped segment at
version 5 has `version() = 5 ≥ op_num = 5`, yet
`create_field_index(5, ...)` proceeds (the code's guard is the strict
`version() > op_num`), returns `changed = true` and mutates the
state — refuting the claim that `version ≥ op_num` implies a no-op
returning `false`. -/
theorem C5_equal_version_not_noop :
    proxyVersion proxyV5 = 5 ∧
    (proxyCreateFieldIndex 5 7 (some 3) proxyV5).1 = true ∧
    (proxyCreateFieldIndex 5 7 (some 3) proxyV5).2.createdIndexes = [(7, 3)] := by
  decide

/-- C5 (amended): whenever the proxy's current version is **strictly
greater** than the incoming `op_num`, both `create_field_index` and
`delete_field_index` are no-ops returning `changed = false`. -/
theorem C5_strict_version_gate (s : ProxyState) (op key : Nat) (schema : Option Nat)
    (h : proxyVersion s > op) :
    proxyCreateFieldIndex op key schema s = (false, s) ∧
    proxyDeleteFieldIndex op key s = (false, s) := by
  constructor
  · unfold proxyCreateFieldIndex
    simp [h]
  · unfold proxyDeleteFieldIndex
    simp [h]

/-- Witness for `C5_strict_version_gate` at the fresh proxy over a
version-5 wrapped segment and `op_num = 4`. -/
theorem C5_strict_version_gate_witness :
    proxyCreateFieldIndex 4 7 (some 3) proxyV5 = (false, proxyV5) ∧
    proxyDeleteFieldIndex 4 7 proxyV5 = (false, proxyV5) :=
  C5_strict_version_gate proxyV5 4 7 (some 3) (by decide)

/-- C7 counterexample: the integer map index with a single value `7`
whose posting list has size exactly `threshold = 1` emits a payload
block for it (the code's guard is `>= threshold`), although the size
does not strictly exceed the threshold — refuting the claim for
`MapIndex<IntPayloadType>`. -/
theorem C7_int_threshold_not_strict :
    ((7 : Int), 1) ∈ payloadBlocksInt 1 [((7 : Int), [0])] ∧ ¬ (1 : Nat) > 1 := by
  decide

/-- C7 (amended): `payload_blocks` of the keyword map index emits an
entry for exactly the values whose posting list size **strictly
exceeds** the threshold, while the integer map index emits an entry for
exactly the values whose posting list size is **greater than or equal
to** the threshold. -/
theorem C7_payload_blocks_thresholds (t : Nat) :
    (∀ (m : List (List Char × List PointOffset)) (v : List Char) (c : Nat),
      (v, c) ∈ payloadBlocksStr t m ↔
        ∃ ids, (v, ids) ∈ m ∧ t < ids.length ∧ c = ids.length) ∧
    (∀ (m : List (Int × List PointOffset)) (v : Int) (c : Nat),
      (v, c) ∈ payloadBlocksInt t m ↔
        ∃ ids, (v, ids) ∈ m ∧ t ≤ ids.length ∧ c = ids.length) := by
  constructor
  · intro m v c
    simp only [payloadBlocksStr, List.mem_map, List.mem_filter, Prod.mk.injEq,
      decide_eq_true_eq]
    constructor
    · rintro ⟨⟨a, b⟩, ⟨hm, hlen⟩, rfl, rfl⟩
      exact ⟨b, hm, hlen, rfl⟩
    · rintro ⟨ids, hm, hlen, rfl⟩
      exact ⟨(v, ids), ⟨hm, hlen⟩, rfl, rfl⟩
  · intro m v c
    simp only [payloadBlocksInt, List.mem_map, List.mem_filter, Prod.mk.injEq,
      decide_eq_true_eq]
    constructor
    · rintro ⟨⟨a, b⟩, ⟨hm, hlen⟩, rfl, rfl⟩
      exact ⟨b, hm, hlen, rfl⟩
    · rintro ⟨ids, hm, hlen, rfl⟩
      exact ⟨(v, ids), ⟨hm, hlen⟩, rfl, rfl⟩

/-- C10: `ProxySegment::delete_filtered` only mutates the write
segment: the wrapped segment, the shared `deleted_points` set, the
per-proxy counter and both index-delta containers are unchanged, and a
point of the wrapped segment that is not in `deleted_points` is still
reported by `has_point` afterwards. -/
theorem C10_delete_filtered_frame (s : ProxyState) (op : Nat) (f : FilterPred) :
    ((proxyDeleteFiltered op f s).2.wrapped = s.wrapped ∧
     (proxyDeleteFiltered op f s).2.deletedPoints = s.deletedPoints ∧
     (proxyDeleteFiltered op f s).2.deletedPointsCount = s.deletedPointsCount ∧
     (proxyDeleteFiltered op f s).2.createdIndexes = s.createdIndexes ∧
     (proxyDeleteFiltered op f s).2.deletedIndexes = s.deletedIndexes ∧
     (proxyDeleteFiltered op f s).2.lastFlushedVersion = s.lastFlushedVersion) ∧
    ∀ p : PointId, segHasPoint s.wrapped p = true → p ∉ s.deletedPoints →
      proxyHasPoint (proxyDeleteFiltered op f s).2 p = true := by
  refine ⟨⟨rfl, rfl, rfl, rfl, rfl, rfl⟩, ?_⟩
  intro p hw hd
  simp only [proxyHasPoint, proxyDeleteFiltered]
  simp [hd, hw]

/-- Witness for `C10_delete_filtered_frame`: a fresh proxy over a
one-point wrapped segment, an all-matching filter, point 1. -/
theorem C10_delete_filtered_frame_witness :
    proxyHasPoint (proxyDeleteFiltered 100 (fun _ _ => true) proxyOne).2 1 = true :=
  (C10_delete_filtered_frame proxyOne 100 (fun _ _ => true)).2 1 (by decide) (by decide)

/-- C9 counterexample: (1) with the stop flag set but an **empty**
source segment, `update_from` never consults the flag (the check sits
inside the per-point loop) and returns `Ok` instead of a `Cancelled`
error, refuting the claim's unconditional first conjunct; (2) when the
final reopen from the destination path fails, `build` returns an error
although the rename was already performed, so this failed build leaves
the new segment visible at the destination — refuting the claim's final
conjunct. -/
theorem C9_stopped_empty_source_ok :
    exceptIsOk (updateFrom emptyBSeg emptyBSeg true) = true ∧
    build ⟨some emptyBSeg, []⟩ false (.ok ()) (.ok ()) (.error .service) =
      (.error .service, true) := by
  exact ⟨by decide, by rfl⟩

/-- Helper: with the stop flag set, the merge loop fails with
`Cancelled` on any non-empty pair list. -/
theorem updateLoop_stopped (other : BSegment) (p : Nat × Nat)
    (rest : List (Nat × Nat)) (s : BSegment) :
    updateLoop true other (p :: rest) s = .error .cancelled := by
  cases p
  simp [updateLoop]

/-- C9 (amended): with the stop flag set, `update_from` on a source
with at least one live vector fails with `Cancelled`; `build` on a
builder with at least one accumulated indexed field fails with
`Cancelled` without renaming; an error arising at or before the flush
(cancellation, vector-index failure, flush failure, missing segment)
leaves the rename unperformed; the rename is performed only when the
field-index loop, the vector-index build and the flush all succeeded;
and a failure of the final reopen from the destination path happens
after the rename, returning an error with the new segment already
visible at the destination. -/
theorem C9_cancellation_semantics :
    (∀ self other : BSegment, liveOffsets other ≠ [] →
      updateFrom self other true = .error .cancelled) ∧
    (∀ (b : Builder) (seg : BSegment), b.segment = some seg → b.indexedFields ≠ [] →
      ∀ vio flo lo : Except OpErr Unit,
        build b true vio flo lo = (.error .cancelled, false)) ∧
    (∀ (b : Builder) (st : Bool) (vio flo : Except OpErr Unit) (e : OpErr),
      (build b st vio flo (.ok ())).1 = .error e →
      (build b st vio flo (.ok ())).2 = false) ∧
    (∀ (b : Builder) (st : Bool) (vio flo lo : Except OpErr Unit),
      (build b st vio flo lo).2 = true → vio = .ok () ∧ flo = .ok () ∧
        (∃ seg seg', b.segment = some seg ∧
          buildFieldsLoop st b.indexedFields seg = .ok seg')) ∧
    (∀ (b : Builder) (st : Bool) (seg seg' : BSegment) (e : OpErr),
      b.segment = some seg → buildFieldsLoop st b.indexedFields seg = .ok seg' →
      build b st (.ok ()) (.ok ()) (.error e) = (.error e, true)) := by
  refine ⟨?_, ?_, ?_, ?_, ?_⟩
  · intro self other h
    unfold updateFrom
    cases hl : liveOffsets other with
    | nil => exact absurd hl h
    | cons a as =>
      simp only [hl, List.length_cons, List.range']
      rw [List.zip_cons_cons]
      exact updateLoop_stopped other _ _ _
  · intro b seg hseg hfields vio flo lo
    unfold build
    rw [hseg]
    cases hf : b.indexedFields with
    | nil => exact absurd hf hfields
    | cons f fs => simp [buildFieldsLoop]
  · intro b st vio flo e h
    unfold build at h ⊢
    cases hseg : b.segment with
    | none => rfl
    | some seg =>
      rw [hseg] at h
      cases hloop : buildFieldsLoop st b.indexedFields seg with
      | error e' => simp [hloop]
      | ok seg' =>
        cases vio with
        | error e' => simp [hloop]
        | ok u =>
          cases flo with
          | error e' => simp [hloop]
          | ok u' => simp [hloop] at h
  · intro b st vio flo lo h
    unfold build at h
    cases hseg : b.segment with
    | none => rw [hseg] at h; simp at h
    | some seg =>
      rw [hseg] at h
      dsimp only at h
      cases hloop : buildFieldsLoop st b.indexedFields seg with
      | error e' => rw [hloop] at h; simp at h
      | ok seg' =>
        rw [hloop] at h
        dsimp only at h
        cases vio with
        | error e' => simp at h
        | ok u =>
          cases flo with
          | error e' => simp at h
          | ok u' =>
            cases u
            cases u'
            exact ⟨rfl, rfl, seg, seg', rfl, hloop⟩
  · intro b st seg seg' e hseg hloop
    unfold build
    rw [hseg]
    dsimp only
    rw [hloop]

/-- Witness for `C9_cancellation_semantics`: a cancelled merge from
`segA` (one live vector); a cancelled build with one accumulated field;
an error before the flush (builder consumed) with no rename; a
performed rename implying the earlier steps succeeded; and a failed
reopen returning an error with the rename already performed. -/
theorem C9_cancellation_semantics_witness :
    updateFrom emptyBSeg segA true = .error .cancelled ∧
    build ⟨some emptyBSeg, [(1, 2)]⟩ true (.ok ()) (.ok ()) (.ok ()) =
      (.error .cancelled, false) ∧
    (build ⟨none, []⟩ false (.ok ()) (.ok ()) (.ok ())).2 = false ∧
    ((.ok () : Except OpErr Unit) = .ok () ∧ (.ok () : Except OpErr Unit) = .ok () ∧
      (∃ seg seg', (⟨some emptyBSeg, []⟩ : Builder).segment = some seg ∧
        buildFieldsLoop false [] seg = .ok seg')) ∧
    build ⟨some emptyBSeg, []⟩ false (.ok ()) (.ok ()) (.error .service) =
      (.error .service, true) :=
  ⟨C9_cancellation_semantics.1 emptyBSeg segA (by decide),
   C9_cancellation_semantics.2.1 ⟨some emptyBSeg, [(1, 2)]⟩ emptyBSeg rfl (by decide)
     (.ok ()) (.ok ()) (.ok ()),
   C9_cancellation_semantics.2.2.1 ⟨none, []⟩ false (.ok ()) (.ok ()) .service rfl,
   C9_cancellation_semantics.2.2.2.1 ⟨some emptyBSeg, []⟩ false (.ok ()) (.ok ())
     (.ok ()) rfl,
   C9_cancellation_semantics.2.2.2.2 ⟨some emptyBSeg, []⟩ false emptyBSeg emptyBSeg
     .service rfl rfl⟩

/-- C3 counterexample: on the fail_recovery_test.rs scenario (points 1
and 2 at op 1, `error_status = {version: 2, point_id: 1}`), calls with
`op_num = 3 > 2` are rejected for either point, but the successful call
`set_payload(2, point 2)` leaves the sticky state **set** — refuting
the claim that any successful call with `op_num ≤ version` clears it.
Only the later success on the recorded point 1 clears it. -/
theorem C3_success_on_other_point_keeps_error :
    exceptIsOk (esegSetPayload 3 1 55 esegFail) = false ∧
    exceptIsOk (esegSetPayload 3 2 55 esegFail) = false ∧
    exceptIsOk (esegSetPayload 2 2 55 esegFail) = true ∧
    (esegResultState (esegSetPayload 2 2 55 esegFail)).map (fun t => t.errorStatus) =
      some (some ⟨2, some 1⟩) := by
  decide

/-- C3 (amended): with `error_status = {version, point_id}` recorded,
every mutating call with `op_num > version` is rejected; a call with
`op_num ≤ version` on an existing point succeeds; and after such a
success the sticky state is cleared exactly when the call targeted the
recorded `point_id` — otherwise it is kept. -/
theorem C3_sticky_error_semantics (s : ESegment) (fs : FailedState) (op : Nat)
    (id : PointId) (pl : PayloadData) (h : s.errorStatus = some fs) :
    (op > fs.version → esegSetPayload op id pl s = .error .service) ∧
    ((s.seg.entries.lookup id).isSome → op ≤ fs.version →
      exceptIsOk (esegSetPayload op id pl s) = true) ∧
    ((s.seg.entries.lookup id).isSome → op ≤ fs.version → fs.pointId = some id →
      (esegResultState (esegSetPayload op id pl s)).map (fun t => t.errorStatus) =
        some none) ∧
    ((s.seg.entries.lookup id).isSome → op ≤ fs.version → fs.pointId ≠ some id →
      (esegResultState (esegSetPayload op id pl s)).map (fun t => t.errorStatus) =
        some (some fs)) := by
  refine ⟨?_, ?_, ?_, ?_⟩
  · intro hop
    unfold esegSetPayload
    rw [h]
    simp [hop]
  · intro hsome hop
    unfold esegSetPayload
    rw [h]
    obtain ⟨p, hp⟩ := Option.isSome_iff_exists.mp hsome
    simp [Nat.not_lt.mpr hop, hp, exceptIsOk]
  · intro hsome hop hpid
    unfold esegSetPayload
    rw [h]
    obtain ⟨p, hp⟩ := Option.isSome_iff_exists.mp hsome
    simp [Nat.not_lt.mpr hop, hp, esegResultState, hpid]
  · intro hsome hop hpid
    unfold esegSetPayload
    rw [h]
    obtain ⟨p, hp⟩ := Option.isSome_iff_exists.mp hsome
    simp [Nat.not_lt.mpr hop, hp, esegResultState, hpid]

/-- Witness for `C3_sticky_error_semantics` on the fail_recovery_test
segment: op 3 is rejected, op 2 on the recorded point 1 succeeds and
clears, op 2 on point 2 succeeds and keeps the state. -/
theorem C3_sticky_error_semantics_witness :
    esegSetPayload 3 2 55 esegFail = .error .service ∧
    exceptIsOk (esegSetPayload 2 1 55 esegFail) = true ∧
    (esegResultState (esegSetPayload 2 1 55 esegFail)).map (fun t => t.errorStatus) =
      some none ∧
    (esegResultState (esegSetPayload 2 2 55 esegFail)).map (fun t => t.errorStatus) =
      some (some ⟨2, some 1⟩) :=
  ⟨(C3_sticky_error_semantics esegFail ⟨2, some 1⟩ 3 2 55 (by decide)).1 (by decide),
   (C3_sticky_error_semantics esegFail ⟨2, some 1⟩ 2 1 55 (by decide)).2.1 (by decide)
     (by decide),
   (C3_sticky_error_semantics esegFail ⟨2, some 1⟩ 2 1 55 (by decide)).2.2.1 (by decide)
     (by decide) (by decide),
   (C3_sticky_error_semantics esegFail ⟨2, some 1⟩ 2 2 55 (by decide)).2.2.2 (by decide)
     (by decide) (by decide)⟩

/-- C1 counterexample: two reachable proxy states refute the claimed
bound `min ≤ actual ≤ max` for `estimate_points_count` (filter `None`):
after upserting a fresh point into the write segment the estimate's
`max` is 1 while 2 points are visible; after `delete_point` of the
wrapped point the estimate's `min` is 1 while 0 points are visible
(the counter is not consulted for the write segment, and deletions via
`delete_point` do not decrement it). -/
theorem C1_estimate_bounds_violated :
    ((proxyEstimatePointsCount (proxyUpsertPoint 100 2 11 proxyOne).2 none).max = 1 ∧
     proxyActualMatches (proxyUpsertPoint 100 2 11 proxyOne).2 none = 2 ∧
     ¬ proxyActualMatches (proxyUpsertPoint 100 2 11 proxyOne).2 none ≤
       (proxyEstimatePointsCount (proxyUpsertPoint 100 2 11 proxyOne).2 none).max) ∧
    ((proxyEstimatePointsCount (proxyDeletePoint 100 1 proxyOne).2 none).min = 1 ∧
     proxyActualMatches (proxyDeletePoint 100 1 proxyOne).2 none = 0 ∧
     ¬ (proxyEstimatePointsCount (proxyDeletePoint 100 1 proxyOne).2 none).min ≤
       proxyActualMatches (proxyDeletePoint 100 1 proxyOne).2 none) := by
  decide

/-- Helper: unfolding `List.lookup` over a cons cell. -/
theorem lookup_cons {β : Type} (k : Nat) (v : β) (t : List (Nat × β)) (id : Nat) :
    ((k, v) :: t).lookup id = if id = k then some v else t.lookup id := by
  simp only [List.lookup]
  cases h : id == k
  · simp [beq_eq_false_iff_ne.mp h]
  · simp [beq_iff_eq.mp h]

/-- Helper: a key occurring in an association list has a successful
lookup. -/
theorem lookup_isSome_of_mem_keys {β : Type} (l : List (Nat × β)) (id : Nat)
    (h : id ∈ l.map Prod.fst) : (l.lookup id).isSome := by
  induction l with
  | nil => simp at h
  | cons a t ih =>
    obtain ⟨k, v⟩ := a
    rw [lookup_cons]
    by_cases hk : id = k
    · simp [hk]
    · have h' : id ∈ t.map Prod.fst := by
        rcases List.mem_cons.mp (by simpa only [List.map_cons] using h) with h0 | h0
        · exact absurd h0 hk
        · simpa using h0
      simpa [hk] using ih h'

/-- Helper: in an association list with duplicate-free keys, lookup of a
member's key returns its value. -/
theorem lookup_eq_of_mem_of_nodup {β : Type} (l : List (Nat × β))
    (e : Nat × β) (hn : (l.map Prod.fst).Nodup) (he : e ∈ l) :
    l.lookup e.1 = some e.2 := by
  induction l with
  | nil => simp at he
  | cons a t ih =>
    obtain ⟨k, v⟩ := a
    simp only [List.map_cons, List.nodup_cons] at hn
    rw [lookup_cons]
    rcases List.mem_cons.mp he with h | h
    · subst h
      simp
    · have hne : e.1 ≠ k := by
        intro hkey
        exact hn.1 (hkey ▸ List.mem_map_of_mem Prod.fst h)
      simpa [hne] using ih hn.2 h

/-- C1 (amended): `ProxySegment::estimate_points_count` returns exactly
the wrapped segment's cardinality triple with `min`, `exp` and `max`
each reduced by `deleted_points_count` via saturating subtraction and
the primary clauses cleared (the write segment is not consulted), so the
claimed bound fails in general; the `min` component is a sound lower
bound for the visible matches whenever the counter equals the size of
the shared `deleted_points` set and every point shared between the
wrapped and write segments is in that set. -/
theorem C1_estimate_projection_and_min_bound :
    (∀ (s : ProxyState) (f : Option FilterPred),
      proxyEstimatePointsCount s f =
        specProjectTriple (segEstimatePointsCount s.wrapped f) s.deletedPointsCount) ∧
    (∀ (s : ProxyState) (f : Option FilterPred),
      s.deletedPointsCount = s.deletedPoints.length →
      (s.wrapped.entries.map Prod.fst).Nodup →
      (∀ p : PointId, p ∈ s.wrapped.entries.map Prod.fst →
        segHasPoint s.write p = true → p ∈ s.deletedPoints) →
      (proxyEstimatePointsCount s f).min ≤ proxyActualMatches s f) := by
  constructor
  · intro s f
    rfl
  · intro s f hc hn hov
    set P : PointId × SegPoint → Bool :=
      fun e => filtMatch f e.1 e.2.payload with hP
    set dropP : PointId × SegPoint → Bool :=
      fun e => decide (e.1 ∈ s.deletedPoints) with hdropP
    set M : List (PointId × SegPoint) := s.wrapped.entries.filter P with hM
    set Mkeep : List (PointId × SegPoint) := M.filter (fun e => !(dropP e)) with hMkeep
    set Mdrop : List (PointId × SegPoint) := M.filter dropP with hMdrop
    have hmin : (proxyEstimatePointsCount s f).min =
        M.length - s.deletedPointsCount := rfl
    -- the dropped matches are at most the whole deleted set
    have hMsub : M.Sublist s.wrapped.entries := List.filter_sublist _
    have hMnodup : (M.map Prod.fst).Nodup :=
      List.Nodup.sublist (List.Sublist.map Prod.fst hMsub) hn
    have hdropnodup : (Mdrop.map Prod.fst).Nodup :=
      List.Nodup.sublist (List.Sublist.map Prod.fst (List.filter_sublist _)) hMnodup
    have hdropsub : (Mdrop.map Prod.fst) ⊆ s.deletedPoints := by
      intro id hid
      rcases List.mem_map.mp hid with ⟨e, he, rfl⟩
      have h1 := List.of_mem_filter he
      simpa [hdropP] using h1
    have hdrople : Mdrop.length ≤ s.deletedPoints.length := by
      have h1 := (hdropnodup.subperm hdropsub).length_le
      simpa using h1
    have hsplit : M.length = Mdrop.length + Mkeep.length := by
      have h1 := List.length_eq_length_filter_add (l := M) dropP
      have h2 : M.filter (fun x => !dropP x) = Mkeep := rfl
      have h3 : M.filter dropP = Mdrop := rfl
      rw [h2, h3] at h1
      omega
    -- each kept match is a visible matching point
    have hkeep : (Mkeep.map Prod.fst) ⊆
        ((s.wrapped.entries.map (fun e => e.1)) ++
          (s.write.entries.map (fun e => e.1))).dedup.filter (visibleMatch s f) := by
      intro id hid
      rcases List.mem_map.mp hid with ⟨e, he, rfl⟩
      have heM : e ∈ M := List.mem_of_mem_filter he
      have heW : e ∈ s.wrapped.entries := hMsub.subset heM
      have hkey : e.1 ∈ s.wrapped.entries.map Prod.fst := List.mem_map_of_mem Prod.fst heW
      have hnotD : e.1 ∉ s.deletedPoints := by
        have h1 := List.of_mem_filter he
        simpa [hdropP] using h1
      have hmatch : P e = true := List.of_mem_filter heM
      have hwrapped_has : segHasPoint s.wrapped e.1 = true := by
        simpa [segHasPoint] using lookup_isSome_of_mem_keys _ _ hkey
      have hwrite_not : segHasPoint s.write e.1 = false := by
        cases hwb : segHasPoint s.write e.1
        · rfl
        · exact absurd (hov e.1 hkey hwb) hnotD
      refine List.mem_filter.mpr ⟨?_, ?_⟩
      · exact List.mem_dedup.mpr (List.mem_append.mpr (Or.inl
          (List.mem_map.mpr ⟨e, heW, rfl⟩)))
      · have hhas : proxyHasPoint s e.1 = true := by
          simp [proxyHasPoint, hnotD, hwrapped_has, hwrite_not]
        have hpl : proxyPayload s e.1 = some e.2.payload := by
          simp [proxyPayload, hnotD, hwrite_not, segPayload,
            lookup_eq_of_mem_of_nodup s.wrapped.entries e hn heW]
        unfold visibleMatch
        rw [hhas, hpl]
        cases f with
        | none => simp
        | some φ =>
          simpa [hP, filtMatch] using hmatch
    have hkeepnodup : (Mkeep.map Prod.fst).Nodup :=
      List.Nodup.sublist (List.Sublist.map Prod.fst (List.filter_sublist _)) hMnodup
    have hkeeple : Mkeep.length ≤ proxyActualMatches s f := by
      have h1 := (hkeepnodup.subperm hkeep).length_le
      simpa [proxyActualMatches] using h1
    rw [hmin, hc]
    omega

/-- Witness for the conditional part of
`C1_estimate_projection_and_min_bound`: a fresh proxy over a one-point
wrapped segment satisfies the side conditions and the bound. -/
theorem C1_estimate_projection_and_min_bound_witness :
    (proxyEstimatePointsCount proxyOne none).min ≤ proxyActualMatches proxyOne none :=
  C1_estimate_projection_and_min_bound.2 proxyOne none (by decide) (by decide)
    (by decide)

/-- Helper: every character of a rendered natural number is a decimal
digit. -/
theorem natChars_digits (n : Nat) : ∀ c ∈ natChars n, isDigitCh c = true := by
  induction n using Nat.strong_induction_on with
  | _ n ih =>
    rw [natChars]
    by_cases h : n < 10
    · simp only [dif_pos h, List.mem_singleton]
      intro c hc
      subst hc
      interval_cases n <;> decide
    · simp only [dif_neg h]
      intro c hc
      rcases List.mem_append.mp hc with hc | hc
      · have h10 : 10 ≤ n := Nat.le_of_not_lt h
        exact ih (n / 10) (Nat.div_lt_self (by omega) (by decide)) c hc
      · simp only [List.mem_singleton] at hc
        subst hc
        have hm : n % 10 < 10 := Nat.mod_lt _ (by decide)
        set m := n % 10 with hmdef
        clear_value m
        interval_cases m <;> decide

/-- Helper: a rendered natural number is never empty. -/
theorem natChars_ne_nil (n : Nat) : natChars n ≠ [] := by
  rw [natChars]
  by_cases h : n < 10 <;> simp [h]

/-- Helper: no `/` occurs in a rendered natural number. -/
theorem noSlash_natChars (n : Nat) : '/' ∉ natChars n := by
  intro h
  have := natChars_digits n '/' h
  exact absurd this (by decide)

/-- Helper: folding the digit parser over a rendered natural number
extends the accumulator positionally. -/
theorem parseNat_foldl (n : Nat) : ∀ acc : Nat,
    (natChars n).foldl (fun acc c =>
        acc.bind (fun a => if isDigitCh c then some (a * 10 + (c.toNat - 48)) else none))
      (some acc) = some (acc * 10 ^ (natChars n).length + n) := by
  induction n using Nat.strong_induction_on with
  | _ n ih =>
    intro acc
    rw [natChars]
    by_cases h : n < 10
    · simp only [dif_pos h, List.foldl_cons, List.foldl_nil, List.length_singleton]
      have hd : isDigitCh (Char.ofNat (48 + n)) = true ∧
          (Char.ofNat (48 + n)).toNat = 48 + n := by
        interval_cases n <;> exact ⟨by decide, by decide⟩
      simp only [hd.1, if_true, pow_one, Option.some_bind, Option.some.injEq]
      have h2 := hd.2
      omega
    · have h10 : 10 ≤ n := Nat.le_of_not_lt h
      simp only [dif_neg h, List.foldl_append, List.length_append, List.foldl_cons,
        List.foldl_nil, List.length_singleton]
      rw [ih (n / 10) (Nat.div_lt_self (by omega) (by decide)) acc]
      have hm : n % 10 < 10 := Nat.mod_lt _ (by decide)
      have hd : isDigitCh (Char.ofNat (48 + n % 10)) = true ∧
          (Char.ofNat (48 + n % 10)).toNat = 48 + n % 10 := by
        set m := n % 10 with hmdef
        clear_value m
        interval_cases m <;> exact ⟨by decide, by decide⟩
      simp only [hd.1, if_true, Option.some_bind, Option.some.injEq]
      have hpow : acc * 10 ^ ((natChars (n / 10)).length + 1) =
          acc * 10 ^ (natChars (n / 10)).length * 10 := by ring
      rw [hpow]
      have hmod := Nat.div_add_mod n 10
      have h2 := hd.2
      generalize acc * 10 ^ (natChars (n / 10)).length = B
      omega

/-- Helper: parsing a rendered natural number returns it
(`u32::from_str ∘ Display` is the identity). -/
theorem parseNat_natChars (n : Nat) : parseNat (natChars n) = some n := by
  unfold parseNat
  rw [if_neg (by simp [List.isEmpty_iff, natChars_ne_nil n])]
  simpa using parseNat_foldl n 0

/-- Helper: a slash-free string has no last-slash position. -/
theorem lastSlashPos_none (t : List Char) (h : '/' ∉ t) : lastSlashPos t = none := by
  induction t with
  | nil => rfl
  | cons c cs ih =>
    have hc : ¬ c = '/' := fun hh => h (List.mem_cons.mpr (Or.inl hh.symm))
    have hcs : '/' ∉ cs := fun hh => h (List.mem_cons_of_mem c hh)
    simp [lastSlashPos, ih hcs, hc]

/-- Helper: `rfind('/')` on `value ++ "/" ++ digits` finds exactly the
separator, i.e. the last `/`. -/
theorem lastSlashPos_append (v t : List Char) (h : '/' ∉ t) :
    lastSlashPos (v ++ '/' :: t) = some v.length := by
  induction v with
  | nil => simp [lastSlashPos, lastSlashPos_none t h]
  | cons c cs ih => simp [lastSlashPos, ih]

/-- Helper: dropping past the separator recovers the offset digits. -/
theorem drop_append_cons (v t : List Char) (c : Char) :
    (v ++ c :: t).drop (v.length + 1) = t := by
  rw [show v.length + 1 = (v ++ [c]).length by simp]
  rw [show v ++ c :: t = (v ++ [c]) ++ t by simp]
  exact List.drop_left _ _

/-- Helper: generic decode/encode round trip, given a value renderer
that is slash-free and a parser inverting it. -/
theorem decode_encode_with {N : Type} (parseValue : List Char → Option N)
    (render : List Char) (value : N) (idx : Nat)
    (hp : parseValue render = some value) :
    decodeDbRecordWith parseValue (render ++ '/' :: natChars idx) = some (value, idx) ∧
    lastSlashPos (render ++ '/' :: natChars idx) = some render.length := by
  have hpos := lastSlashPos_append render (natChars idx) (noSlash_natChars idx)
  refine ⟨?_, hpos⟩
  have hlen : (render ++ '/' :: natChars idx).length =
      render.length + ((natChars idx).length + 1) := by
    simp [List.length_append]
  have hnatlen : 0 < (natChars idx).length :=
    List.length_pos.mpr (natChars_ne_nil idx)
  simp only [decodeDbRecordWith, hpos]
  rw [if_neg (by omega)]
  rw [List.take_left, drop_append_cons, hp, parseNat_natChars]

/-- Helper: an integer rendering contains no slash. -/
theorem noSlash_intChars (z : Int) : '/' ∉ intChars z := by
  unfold intChars
  by_cases h : z < 0
  · rw [if_pos h]
    intro hm
    rcases List.mem_cons.mp hm with hm | hm
    · exact absurd hm (by decide)
    · exact noSlash_natChars _ hm
  · rw [if_neg h]
    exact noSlash_natChars _

/-- Helper: parsing a rendered integer returns it
(`i64::from_str ∘ Display` is the identity). -/
theorem parseInt_intChars (z : Int) : parseInt (intChars z) = some z := by
  unfold intChars
  by_cases h : z < 0
  · have hstep : parseInt ('-' :: natChars (-z).toNat) =
        (parseNat (natChars (-z).toNat)).map (fun n => -(n : Int)) := by
      simp [parseInt]
    rw [if_pos h, hstep, parseNat_natChars]
    have hz : ((-z).toNat : Int) = -z := Int.toNat_of_nonneg (by omega)
    simp [hz]
  · obtain ⟨c, cs, hcc⟩ : ∃ c cs, natChars z.toNat = c :: cs := by
      cases h' : natChars z.toNat with
      | nil => exact absurd h' (natChars_ne_nil _)
      | cons c cs => exact ⟨c, cs, rfl⟩
    have hdig : isDigitCh c = true :=
      natChars_digits _ c (by rw [hcc]; exact List.mem_cons_self c cs)
    have hc1 : ¬ c = '-' := by
      intro hh
      rw [hh] at hdig
      exact absurd hdig (by decide)
    have hc2 : ¬ c = '+' := by
      intro hh
      rw [hh] at hdig
      exact absurd hdig (by decide)
    have hstep : parseInt (c :: cs) = (parseNat (c :: cs)).map (fun n => (n : Int)) := by
      simp [parseInt, hc1, hc2]
    rw [if_neg h, hcc, hstep, ← hcc, parseNat_natChars]
    have hz : (z.toNat : Int) = z := Int.toNat_of_nonneg (by omega)
    simp [hz]

/-- C8: for every keyword string value (slashes included) and every
integer value, and every point offset, `decode_db_record` inverts
`encode_db_record`, recovering exactly the original `(value, offset)`
pair, and the separator the decoder locates is the last `/` of the
encoded key, sitting right after the rendered value. -/
theorem C8_encode_decode_roundtrip :
    (∀ (v : List Char) (idx : Nat),
      decodeDbRecordStr (encodeDbRecordStr v idx) = some (v, idx) ∧
      lastSlashPos (encodeDbRecordStr v idx) = some v.length) ∧
    (∀ (z : Int) (idx : Nat),
      decodeDbRecordInt (encodeDbRecordInt z idx) = some (z, idx) ∧
      lastSlashPos (encodeDbRecordInt z idx) = some (intChars z).length) := by
  constructor
  · intro v idx
    exact decode_encode_with (fun w => some w) v v idx rfl
  · intro z idx
    exact decode_encode_with parseInt (intChars z) z idx (parseInt_intChars z)

/-- Helper: for offsets within the `u32` range, the computed start
bound admits exactly the keys whose value passes the lower side of the
range. -/
theorem satStart_eq (r : RangeCond) (v : ℚ) (o : Nat) (ho : o ≤ OFFSET_MAX) :
    satStart (startBound r) (v, o) = lowerOk r v := by
  unfold startBound lowerOk
  cases hgt : r.gt with
  | some g =>
    show keyLt (g, OFFSET_MAX) (v, o) = decide (g < v)
    unfold keyLt
    have hno : decide (OFFSET_MAX < o) = false := by
      simp [Nat.not_lt.mpr ho]
    simp [hno]
  | none =>
    cases hgte : r.gte with
    | some g =>
      show keyLe (g, 0) (v, o) = decide (g ≤ v)
      unfold keyLe
      rcases lt_trichotomy g v with h | h | h
      · simp [h, le_of_lt h]
      · simp [h]
      · simp [not_lt.mpr (le_of_lt h), not_le.mpr h, ne_of_gt h]
    | none => rfl

/-- Helper: for offsets within the `u32` range, the computed end bound
admits exactly the keys whose value passes the upper side of the
range. -/
theorem satEnd_eq (r : RangeCond) (v : ℚ) (o : Nat) (ho : o ≤ OFFSET_MAX) :
    satEnd (endBound r) (v, o) = upperOk r v := by
  unfold endBound upperOk
  cases hlt : r.lt with
  | some l =>
    show keyLt (v, o) (l, 0) = decide (v < l)
    unfold keyLt
    simp
  | none =>
    cases hlte : r.lte with
    | some l =>
      show keyLe (v, o) (l, OFFSET_MAX) = decide (v ≤ l)
      unfold keyLe
      rcases lt_trichotomy v l with h | h | h
      · simp [h, le_of_lt h]
      · simp [h, ho]
      · simp [not_lt.mpr (le_of_lt h), not_le.mpr h, ne_of_gt h]
    | none => rfl

/-- Helper: unfolding a true `keyLt` comparison into its two cases. -/
theorem keyLt_cases (a b : NumKey) (h : keyLt a b = true) :
    a.1 < b.1 ∨ (a.1 = b.1 ∧ a.2 < b.2) := by
  unfold keyLt at h
  simpa using h

/-- Helper: when the degenerate-range guard of `NumericIndex::filter`
fires, no value satisfies the semantic range. -/
theorem degenerate_inRange_false (r : RangeCond)
    (hd : degenerateBounds (startBound r) (endBound r) = true) (v : ℚ) :
    inRange r v = false := by
  unfold inRange lowerOk upperOk
  unfold degenerateBounds startBound endBound at hd
  rcases hgt : r.gt with _ | g <;> rcases hgte : r.gte with _ | g' <;>
    rcases hlt : r.lt with _ | l <;> rcases hlte : r.lte with _ | l' <;>
    rw [hgt, hgte, hlt, hlte] at hd <;> dsimp only at hd ⊢
  all_goals try exact absurd hd (by decide)
  all_goals
    rw [Bool.eq_false_iff]
    intro hc
    simp only [Bool.and_eq_true, decide_eq_true_eq] at hc
    obtain ⟨hc1, hc2⟩ := hc
  all_goals
    simp only [keyLt, beq_iff_eq, Prod.mk.injEq, Bool.or_eq_true, Bool.and_eq_true,
      decide_eq_true_eq, OFFSET_MAX] at hd
  all_goals
    norm_num at hd
  all_goals
    first
    | (rcases hd with h | h <;> linarith)
    | linarith

/-- C6: `NumericIndex::filter` on a range condition returns exactly the
offsets of the stored keys whose value lies inside the range (`gt`
exclusive, `gte` inclusive, `lt` exclusive, `lte` inclusive), in the
map's ascending `(value, offset)` order — degenerate ranges included,
which return the empty list; and on the stored values
`[1,1,1,1,1,2,2.5,2.6,3]` at offsets `1..9`: `lte=2.6` yields `[1..=8]`,
`gt=1` yields `[6,7,8,9]`, `gte=2, lte=2.6` yields `[6,7,8]`, and the
degenerate `gt=2, lt=2` yields `[]`. -/
theorem C6_numeric_filter_range :
    (∀ (m : NumMap) (r : RangeCond), (∀ k ∈ m, k.2 ≤ OFFSET_MAX) →
      numFilter r m = (m.filter (fun k => inRange r k.1)).map (fun k => k.2)) ∧
    numFilter { lte := some q26 } scenarioNumMap = [1, 2, 3, 4, 5, 6, 7, 8] ∧
    numFilter { gt := some 1 } scenarioNumMap = [6, 7, 8, 9] ∧
    numFilter { gte := some 2, lte := some q26 } scenarioNumMap = [6, 7, 8] ∧
    numFilter { gt := some 2, lt := some 2 } scenarioNumMap = [] := by
  refine ⟨?_, by decide, by decide, by decide, by decide⟩
  intro m r hoff
  unfold numFilter
  by_cases hd : degenerateBounds (startBound r) (endBound r) = true
  · rw [if_pos hd]
    have hnil : m.filter (fun k => inRange r k.1) = [] :=
      List.filter_eq_nil_iff.mpr (fun k _ => by
        simp [degenerate_inRange_false r hd k.1])
    rw [hnil]
    rfl
  · rw [if_neg hd]
    congr 1
    apply List.filter_congr
    intro k hk
    obtain ⟨v, o⟩ := k
    rw [satStart_eq r v o (hoff _ hk), satEnd_eq r v o (hoff _ hk)]
    rfl

/-- Witness for the universally quantified part of
`C6_numeric_filter_range`, instantiated on the scenario map and the
`gte=2, lte=2.6` range. -/
theorem C6_numeric_filter_range_witness :
    numFilter { gte := some 2, lte := some q26 } scenarioNumMap =
      (scenarioNumMap.filter
        (fun k => inRange { gte := some 2, lte := some q26 } k.1)).map
        (fun k => k.2) :=
  C6_numeric_filter_range.1 scenarioNumMap { gte := some 2, lte := some q26 }
    (by decide)

/-! ### Lemmas on the builder's merge loop (for C4) -/

/-- Helper: filtering out a key leaves other lookups unchanged. -/
theorem lookup_filter_ne {β : Type} (l : List (Nat × β)) (k x : Nat) (hx : x ≠ k) :
    (l.filter (fun e => !(e.1 = k : Bool))).lookup x = l.lookup x := by
  induction l with
  | nil => rfl
  | cons a t ih =>
    obtain ⟨a1, a2⟩ := a
    rw [List.filter_cons]
    by_cases hak : a1 = k
    · subst hak
      rw [if_neg (by simp)]
      rw [ih, lookup_cons, if_neg hx]
    · rw [if_pos (by simp [hak])]
      rw [lookup_cons, lookup_cons]
      by_cases hxa : x = a1
      · rw [if_pos hxa, if_pos hxa]
      · rw [if_neg hxa, if_neg hxa, ih]

/-- Helper: `setAssoc` makes the key look up the new value. -/
theorem lookup_setAssoc_self (l : List (Nat × Nat)) (k v : Nat) :
    (setAssoc l k v).lookup k = some v := by
  unfold setAssoc
  rw [lookup_cons, if_pos rfl]

/-- Helper: `setAssoc` leaves other keys unchanged. -/
theorem lookup_setAssoc_ne (l : List (Nat × Nat)) (k v x : Nat) (hx : x ≠ k) :
    (setAssoc l k v).lookup x = l.lookup x := by
  unfold setAssoc
  rw [lookup_cons, if_neg hx, lookup_filter_ne _ _ _ hx]

/-- Helper: the never-seen branch of the merge step. -/
theorem updateStep_none (s : BSegment) (n : Nat) (e : PointId) (ev : Nat)
    (pl : PayloadData) (h : s.versions.lookup e = none) :
    updateStep s n e ev pl =
      { s with links := setAssoc s.links e n, versions := setAssoc s.versions e ev,
               payloads := setAssoc s.payloads n pl } := by
  unfold updateStep
  rw [h]

/-- Helper: the older-existing-version branch of the merge step. -/
theorem updateStep_older (s : BSegment) (n : Nat) (e : PointId) (ev : Nat)
    (pl : PayloadData) (ev' : Nat) (h : s.versions.lookup e = some ev')
    (hlt : ev' < ev) :
    updateStep s n e ev pl =
      { s with deleted := (s.links.lookup e).getD 0 :: s.deleted,
               links := setAssoc s.links e n, versions := setAssoc s.versions e ev,
               payloads := setAssoc s.payloads n pl } := by
  unfold updateStep
  rw [h]
  dsimp only
  rw [if_pos hlt]

/-- Helper: the newer-or-equal-existing-version branch of the merge
step. -/
theorem updateStep_newer (s : BSegment) (n : Nat) (e : PointId) (ev : Nat)
    (pl : PayloadData) (ev' : Nat) (h : s.versions.lookup e = some ev')
    (hge : ¬ ev' < ev) :
    updateStep s n e ev pl = { s with deleted := n :: s.deleted } := by
  unfold updateStep
  rw [h]
  dsimp only
  rw [if_neg hge]

/-- Helper: the merge step never changes the vector storage. -/
theorem updateStep_vectors (s : BSegment) (n : Nat) (e : PointId) (ev : Nat)
    (pl : PayloadData) : (updateStep s n e ev pl).vectors = s.vectors := by
  rcases h : s.versions.lookup e with _ | ev'
  · rw [updateStep_none s n e ev pl h]
  · by_cases hlt : ev' < ev
    · rw [updateStep_older s n e ev pl ev' h hlt]
    · rw [updateStep_newer s n e ev pl ev' h hlt]

/-- Helper: the merge step does not touch the links or versions of other
external ids. -/
theorem updateStep_frame (s : BSegment) (n : Nat) (e : PointId) (ev : Nat)
    (pl : PayloadData) (x : PointId) (hx : x ≠ e) :
    (updateStep s n e ev pl).links.lookup x = s.links.lookup x ∧
    (updateStep s n e ev pl).versions.lookup x = s.versions.lookup x := by
  rcases h : s.versions.lookup e with _ | ev'
  · rw [updateStep_none s n e ev pl h]
    exact ⟨lookup_setAssoc_ne _ _ _ _ hx, lookup_setAssoc_ne _ _ _ _ hx⟩
  · by_cases hlt : ev' < ev
    · rw [updateStep_older s n e ev pl ev' h hlt]
      exact ⟨lookup_setAssoc_ne _ _ _ _ hx, lookup_setAssoc_ne _ _ _ _ hx⟩
    · rw [updateStep_newer s n e ev pl ev' h hlt]
      exact ⟨rfl, rfl⟩

/-- Helper: the merge step writes payload only at the fresh offset. -/
theorem updateStep_payload_frame (s : BSegment) (n : Nat) (e : PointId) (ev : Nat)
    (pl : PayloadData) (off : Nat) (hoff : off ≠ n) :
    (updateStep s n e ev pl).payloads.lookup off = s.payloads.lookup off := by
  rcases h : s.versions.lookup e with _ | ev'
  · rw [updateStep_none s n e ev pl h]
    exact lookup_setAssoc_ne _ _ _ _ hoff
  · by_cases hlt : ev' < ev
    · rw [updateStep_older s n e ev pl ev' h hlt]
      exact lookup_setAssoc_ne _ _ _ _ hoff
    · rw [updateStep_newer s n e ev pl ev' h hlt]

/-- Helper: tombstones added by one merge step are the fresh offset or
the replaced id's previously linked offset. -/
theorem updateStep_deleted_mem (s : BSegment) (n : Nat) (e : PointId) (ev : Nat)
    (pl : PayloadData) (d : Nat) (hd : d ∈ (updateStep s n e ev pl).deleted) :
    d ∈ s.deleted ∨ d = n ∨
      (∃ ev', s.versions.lookup e = some ev' ∧ ev' < ev ∧
        d = (s.links.lookup e).getD 0) := by
  rcases h : s.versions.lookup e with _ | ev'
  · rw [updateStep_none s n e ev pl h] at hd
    exact Or.inl hd
  · by_cases hlt : ev' < ev
    · rw [updateStep_older s n e ev pl ev' h hlt] at hd
      rcases List.mem_cons.mp hd with hd | hd
      · exact Or.inr (Or.inr ⟨ev', rfl, hlt, hd⟩)
      · exact Or.inl hd
    · rw [updateStep_newer s n e ev pl ev' h hlt] at hd
      rcases List.mem_cons.mp hd with hd | hd
      · exact Or.inr (Or.inl hd)
      · exact Or.inl hd

/-- Helper: the merge step only adds tombstones. -/
theorem updateStep_deleted_sub (s : BSegment) (n : Nat) (e : PointId) (ev : Nat)
    (pl : PayloadData) : s.deleted ⊆ (updateStep s n e ev pl).deleted := by
  intro d hd
  rcases h : s.versions.lookup e with _ | ev'
  · rw [updateStep_none s n e ev pl h]
    exact hd
  · by_cases hlt : ev' < ev
    · rw [updateStep_older s n e ev pl ev' h hlt]
      exact List.mem_cons_of_mem _ hd
    · rw [updateStep_newer s n e ev pl ev' h hlt]
      exact List.mem_cons_of_mem _ hd

/-- Helper: the merge step preserves "every versioned id is linked". -/
theorem updateStep_lv (s : BSegment) (n : Nat) (e : PointId) (ev : Nat)
    (pl : PayloadData)
    (h : ∀ y, (s.versions.lookup y).isSome → (s.links.lookup y).isSome) :
    ∀ y, ((updateStep s n e ev pl).versions.lookup y).isSome →
      ((updateStep s n e ev pl).links.lookup y).isSome := by
  intro y hy
  by_cases hye : y = e
  · subst hye
    rcases hv : s.versions.lookup y with _ | ev'
    · rw [updateStep_none s n y ev pl hv]
      simp [lookup_setAssoc_self]
    · by_cases hlt : ev' < ev
      · rw [updateStep_older s n y ev pl ev' hv hlt]
        simp [lookup_setAssoc_self]
      · rw [updateStep_newer s n y ev pl ev' hv hlt] at hy ⊢
        exact h y hy
  · obtain ⟨hl, hv⟩ := updateStep_frame s n e ev pl y hye
    rw [hl]
    rw [hv] at hy
    exact h y hy

/-- Helper: on a well-formed source, the merge loop never fails and
computes the fold of `pairStep`. -/
theorem updateLoop_ok (other : BSegment) (pairs : List (Nat × Nat)) :
    ∀ s : BSegment,
      (∀ p ∈ pairs, (externalOf other p.2).isSome ∧ p.2 < other.vectors.length) →
      updateLoop false other pairs s = .ok (pairs.foldl (pairStep other) s) := by
  induction pairs with
  | nil => intro s h; rfl
  | cons p rest ih =>
    intro s h
    obtain ⟨n, o⟩ := p
    obtain ⟨hsome, hlt⟩ := h _ (List.mem_cons_self _ _)
    obtain ⟨ext, hext⟩ := Option.isSome_iff_exists.mp hsome
    obtain ⟨vv, hvv⟩ : ∃ v, other.vectors.get? o = some v :=
      ⟨other.vectors.get ⟨o, hlt⟩, List.get?_eq_get hlt⟩
    have hps : pairStep other s (n, o) =
        updateStep s n ext ((other.versions.lookup ext).getD 0)
          ((other.payloads.lookup o).getD 0) := by
      unfold pairStep
      rw [hext]
      rfl
    unfold updateLoop
    rw [if_neg (by simp), hext, hvv]
    dsimp only
    rw [List.foldl_cons, hps]
    exact ih _ (fun q hq => h q (List.mem_cons_of_mem _ hq))

/-- Helper: a fold of merge steps whose pairs all target other external
ids leaves the links and versions of `x` unchanged. -/
theorem foldl_frame (other : BSegment) (pairs : List (Nat × Nat)) :
    ∀ (s : BSegment) (x : PointId),
      (∀ p ∈ pairs, (externalOf other p.2).getD 0 ≠ x) →
      ((pairs.foldl (pairStep other) s).links.lookup x = s.links.lookup x ∧
       (pairs.foldl (pairStep other) s).versions.lookup x = s.versions.lookup x) := by
  induction pairs with
  | nil => intro s x _; exact ⟨rfl, rfl⟩
  | cons p rest ih =>
    intro s x h
    rw [List.foldl_cons]
    obtain ⟨h1, h2⟩ := ih (pairStep other s p) x
      (fun q hq => h q (List.mem_cons_of_mem _ hq))
    obtain ⟨h3, h4⟩ := updateStep_frame s p.1 ((externalOf other p.2).getD 0)
      ((other.versions.lookup ((externalOf other p.2).getD 0)).getD 0)
      ((other.payloads.lookup p.2).getD 0) x
      (fun hx => (h p (List.mem_cons_self _ _)) hx.symm)
    exact ⟨h1.trans h3, h2.trans h4⟩

/-- Helper: a fold of merge steps whose fresh offsets all differ from
`off` leaves the payload at `off` unchanged. -/
theorem foldl_payload_frame (other : BSegment) (pairs : List (Nat × Nat)) :
    ∀ (s : BSegment) (off : Nat),
      (∀ p ∈ pairs, p.1 ≠ off) →
      (pairs.foldl (pairStep other) s).payloads.lookup off =
        s.payloads.lookup off := by
  induction pairs with
  | nil => intro s off _; rfl
  | cons p rest ih =>
    intro s off h
    rw [List.foldl_cons]
    rw [ih (pairStep other s p) off (fun q hq => h q (List.mem_cons_of_mem _ hq))]
    exact updateStep_payload_frame _ _ _ _ _ _
      (fun hoff => (h p (List.mem_cons_self _ _)) hoff.symm)

/-- Helper: a fold of merge steps never changes the vector storage. -/
theorem foldl_vectors (other : BSegment) (pairs : List (Nat × Nat)) :
    ∀ s : BSegment, (pairs.foldl (pairStep other) s).vectors = s.vectors := by
  induction pairs with
  | nil => intro s; rfl
  | cons p rest ih =>
    intro s
    rw [List.foldl_cons, ih (pairStep other s p)]
    exact updateStep_vectors _ _ _ _ _

/-- Helper: a fold of merge steps keeps every existing tombstone. -/
theorem foldl_deleted_mono (other : BSegment) (pairs : List (Nat × Nat)) :
    ∀ (s : BSegment) (d : Nat), d ∈ s.deleted →
      d ∈ (pairs.foldl (pairStep other) s).deleted := by
  induction pairs with
  | nil => intro s d hd; exact hd
  | cons p rest ih =>
    intro s d hd
    rw [List.foldl_cons]
    exact ih _ d (updateStep_deleted_sub _ _ _ _ _ hd)

/-- Helper: a fold of merge steps with pairwise-distinct external ids,
fresh offsets different from `d`, linked offsets different from `d`,
and a links-cover-versions state never tombstones `d`. -/
theorem foldl_deleted_avoid (other : BSegment) (pairs : List (Nat × Nat)) :
    ∀ (s : BSegment) (d : Nat),
      d ∉ s.deleted →
      (pairs.map (fun p => (externalOf other p.2).getD 0)).Nodup →
      (∀ p ∈ pairs, p.1 ≠ d) →
      (∀ p ∈ pairs, ∀ off,
        s.links.lookup ((externalOf other p.2).getD 0) = some off → off ≠ d) →
      (∀ y, (s.versions.lookup y).isSome → (s.links.lookup y).isSome) →
      d ∉ (pairs.foldl (pairStep other) s).deleted := by
  induction pairs with
  | nil => intro s d hd _ _ _ _; exact hd
  | cons p rest ih =>
    intro s d hd hnodup hn hm hlv
    rw [List.foldl_cons]
    rw [List.map_cons] at hnodup
    have hpair := List.nodup_cons.mp hnodup
    have hnodup' := hpair.2
    have hheadne : ∀ q ∈ rest,
        (externalOf other q.2).getD 0 ≠ (externalOf other p.2).getD 0 := by
      intro q hq hqe
      apply hpair.1
      rw [← hqe]
      exact List.mem_map_of_mem _ hq
    have hd' : d ∉ (pairStep other s p).deleted := by
      intro hmem
      rcases updateStep_deleted_mem _ _ _ _ _ _ hmem with hmem | hmem | hmem
      · exact hd hmem
      · exact (hn p (List.mem_cons_self _ _)) hmem.symm
      · obtain ⟨ev', hv, _, hdd⟩ := hmem
        obtain ⟨off, hoff⟩ := Option.isSome_iff_exists.mp
          (hlv ((externalOf other p.2).getD 0) (by rw [hv]; rfl))
        rw [hoff] at hdd
        exact (hm p (List.mem_cons_self _ _) off hoff) hdd.symm
    refine ih (pairStep other s p) d hd' hnodup'
      (fun q hq => hn q (List.mem_cons_of_mem _ hq)) ?_ ?_
    · intro q hq off hoff
      obtain ⟨hl, _⟩ := updateStep_frame s p.1 ((externalOf other p.2).getD 0)
        ((other.versions.lookup ((externalOf other p.2).getD 0)).getD 0)
        ((other.payloads.lookup p.2).getD 0)
        ((externalOf other q.2).getD 0) (hheadne q hq)
      rw [show (pairStep other s p).links = (updateStep s p.1
            ((externalOf other p.2).getD 0)
            ((other.versions.lookup ((externalOf other p.2).getD 0)).getD 0)
            ((other.payloads.lookup p.2).getD 0)).links from rfl] at hoff
      rw [hl] at hoff
      exact hm q (List.mem_cons_of_mem _ hq) off hoff
    · exact updateStep_lv _ _ _ _ _ hlv

/-- Helper: a successful lookup comes from a member of the list. -/
theorem lookup_some_mem {β : Type} (l : List (Nat × β)) (x : Nat) (v : β)
    (h : l.lookup x = some v) : (x, v) ∈ l := by
  induction l with
  | nil => simp [List.lookup] at h
  | cons a t ih =>
    obtain ⟨a1, a2⟩ := a
    rw [lookup_cons] at h
    by_cases hx : x = a1
    · rw [if_pos hx] at h
      subst hx
      obtain rfl : a2 = v := by injection h
      exact List.mem_cons_self _ _
    · rw [if_neg hx] at h
      exact List.mem_cons_of_mem _ (ih h)

/-- Helper: a fold of merge steps preserves "every versioned id is
linked". -/
theorem foldl_lv (other : BSegment) (pairs : List (Nat × Nat)) :
    ∀ s : BSegment,
      (∀ y, (s.versions.lookup y).isSome → (s.links.lookup y).isSome) →
      ∀ y, ((pairs.foldl (pairStep other) s).versions.lookup y).isSome →
        ((pairs.foldl (pairStep other) s).links.lookup y).isSome := by
  induction pairs with
  | nil => intro s h; exact h
  | cons p rest ih =>
    intro s h
    rw [List.foldl_cons]
    exact ih _ (updateStep_lv _ _ _ _ _ h)

/-- Helper: full characterization of the merge fold at a distinguished
pair `px`, for pairwise-distinct external ids and fresh offsets at or
above `base`, over a well-formed target. -/
theorem merge_fold_characterization (other s0 : BSegment)
    (pre post : List (Nat × Nat)) (px : Nat × Nat) (base : Nat)
    (hfst : ((pre ++ px :: post).map Prod.fst).Nodup)
    (hfstge : ∀ p ∈ pre ++ px :: post, base ≤ p.1)
    (hexts : ((pre ++ px :: post).map
      (fun p => (externalOf other p.2).getD 0)).Nodup)
    (hbase : ∀ e ∈ s0.links, e.2 < base)
    (hdel : ∀ d ∈ s0.deleted, d < base)
    (hlv : ∀ y, (s0.versions.lookup y).isSome → (s0.links.lookup y).isSome) :
    (s0.versions.lookup ((externalOf other px.2).getD 0) = none →
      ((pre ++ px :: post).foldl (pairStep other) s0).links.lookup
          ((externalOf other px.2).getD 0) = some px.1 ∧
      ((pre ++ px :: post).foldl (pairStep other) s0).versions.lookup
          ((externalOf other px.2).getD 0) =
        some ((other.versions.lookup ((externalOf other px.2).getD 0)).getD 0) ∧
      ((pre ++ px :: post).foldl (pairStep other) s0).payloads.lookup px.1 =
        some ((other.payloads.lookup px.2).getD 0) ∧
      px.1 ∉ ((pre ++ px :: post).foldl (pairStep other) s0).deleted) ∧
    (∀ ev, s0.versions.lookup ((externalOf other px.2).getD 0) = some ev →
      ev < (other.versions.lookup ((externalOf other px.2).getD 0)).getD 0 →
      ((pre ++ px :: post).foldl (pairStep other) s0).links.lookup
          ((externalOf other px.2).getD 0) = some px.1 ∧
      ((pre ++ px :: post).foldl (pairStep other) s0).versions.lookup
          ((externalOf other px.2).getD 0) =
        some ((other.versions.lookup ((externalOf other px.2).getD 0)).getD 0) ∧
      ((pre ++ px :: post).foldl (pairStep other) s0).payloads.lookup px.1 =
        some ((other.payloads.lookup px.2).getD 0) ∧
      px.1 ∉ ((pre ++ px :: post).foldl (pairStep other) s0).deleted ∧
      (s0.links.lookup ((externalOf other px.2).getD 0)).getD 0 ∈
        ((pre ++ px :: post).foldl (pairStep other) s0).deleted) ∧
    (∀ ev, s0.versions.lookup ((externalOf other px.2).getD 0) = some ev →
      (other.versions.lookup ((externalOf other px.2).getD 0)).getD 0 ≤ ev →
      ((pre ++ px :: post).foldl (pairStep other) s0).links.lookup
          ((externalOf other px.2).getD 0) =
        s0.links.lookup ((externalOf other px.2).getD 0) ∧
      ((pre ++ px :: post).foldl (pairStep other) s0).versions.lookup
          ((externalOf other px.2).getD 0) = some ev ∧
      (∀ off, s0.links.lookup ((externalOf other px.2).getD 0) = some off →
        ((pre ++ px :: post).foldl (pairStep other) s0).payloads.lookup off =
          s0.payloads.lookup off) ∧
      px.1 ∈ ((pre ++ px :: post).foldl (pairStep other) s0).deleted) := by
  rw [List.map_append, List.map_cons] at hfst hexts
  obtain ⟨hfst_pre, hfst_rest, hfst_disj⟩ := List.nodup_append.mp hfst
  obtain ⟨hext_pre, hext_rest, hext_disj⟩ := List.nodup_append.mp hexts
  have hfst_head_tail := List.nodup_cons.mp hfst_rest
  have hext_head_tail := List.nodup_cons.mp hext_rest
  -- external-id separations
  have hpre_ext_ne : ∀ q ∈ pre,
      (externalOf other q.2).getD 0 ≠ (externalOf other px.2).getD 0 := by
    intro q hq heq
    exact hext_disj (heq ▸ List.mem_map_of_mem _ hq) (List.mem_cons_self _ _)
  have hpost_ext_ne : ∀ q ∈ post,
      (externalOf other q.2).getD 0 ≠ (externalOf other px.2).getD 0 := by
    intro q hq heq
    exact hext_head_tail.1 (heq ▸ List.mem_map_of_mem _ hq)
  have hpre_post_ext_ne : ∀ q ∈ post, ∀ p' ∈ pre,
      (externalOf other p'.2).getD 0 ≠ (externalOf other q.2).getD 0 := by
    intro q hq p' hp' heq
    exact hext_disj (List.mem_map_of_mem _ hp')
      (heq ▸ List.mem_cons_of_mem _ (List.mem_map_of_mem _ hq))
  -- fresh-offset separations
  have hpx_base : base ≤ px.1 :=
    hfstge px (List.mem_append_right _ (List.mem_cons_self _ _))
  have hpre_fst_ne : ∀ q ∈ pre, q.1 ≠ px.1 := by
    intro q hq heq
    exact hfst_disj (heq ▸ List.mem_map_of_mem _ hq) (List.mem_cons_self _ _)
  have hpost_fst_ne : ∀ q ∈ post, q.1 ≠ px.1 := by
    intro q hq heq
    exact hfst_head_tail.1 (heq ▸ List.mem_map_of_mem _ hq)
  -- folded states
  have hF : (pre ++ px :: post).foldl (pairStep other) s0 =
      post.foldl (pairStep other)
        (pairStep other (pre.foldl (pairStep other) s0) px) := by
    rw [List.foldl_append, List.foldl_cons]
  obtain ⟨hl1, hv1⟩ := foldl_frame other pre s0
    ((externalOf other px.2).getD 0) hpre_ext_ne
  have hs1lv := foldl_lv other pre s0 hlv
  -- s1's links of post pairs are original and below base
  have hm_s1_post : ∀ q ∈ post, ∀ off,
      (pre.foldl (pairStep other) s0).links.lookup
        ((externalOf other q.2).getD 0) = some off → off < base := by
    intro q hq off hoff
    obtain ⟨hlq, _⟩ := foldl_frame other pre s0
      ((externalOf other q.2).getD 0) (fun p' hp' => hpre_post_ext_ne q hq p' hp')
    rw [hlq] at hoff
    exact hbase _ (lookup_some_mem _ _ _ hoff)
  have hm_s0_pre : ∀ q ∈ pre, ∀ off,
      s0.links.lookup ((externalOf other q.2).getD 0) = some off →
        off ≠ px.1 := by
    intro q hq off hoff
    exact Nat.ne_of_lt (Nat.lt_of_lt_of_le (hbase _ (lookup_some_mem _ _ _ hoff))
      hpx_base)
  have hpx_not_s0 : px.1 ∉ s0.deleted := fun hmem =>
    absurd (hdel _ hmem) (Nat.not_lt.mpr hpx_base)
  have hpx_not_s1 : px.1 ∉ (pre.foldl (pairStep other) s0).deleted :=
    foldl_deleted_avoid other pre s0 px.1 hpx_not_s0 hext_pre hpre_fst_ne
      hm_s0_pre hlv
  refine ⟨?_, ?_, ?_⟩
  -- case: never seen
  · intro h0
    have h1 : (pre.foldl (pairStep other) s0).versions.lookup
        ((externalOf other px.2).getD 0) = none := by rw [hv1, h0]
    have hs2 : pairStep other (pre.foldl (pairStep other) s0) px =
        { pre.foldl (pairStep other) s0 with
            links := setAssoc (pre.foldl (pairStep other) s0).links
              ((externalOf other px.2).getD 0) px.1,
            versions := setAssoc (pre.foldl (pairStep other) s0).versions
              ((externalOf other px.2).getD 0)
              ((other.versions.lookup ((externalOf other px.2).getD 0)).getD 0),
            payloads := setAssoc (pre.foldl (pairStep other) s0).payloads px.1
              ((other.payloads.lookup px.2).getD 0) } :=
      updateStep_none _ _ _ _ _ h1
    obtain ⟨hlF, hvF⟩ := foldl_frame other post
      (pairStep other (pre.foldl (pairStep other) s0) px)
      ((externalOf other px.2).getD 0) hpost_ext_ne
    have hplF := foldl_payload_frame other post
      (pairStep other (pre.foldl (pairStep other) s0) px) px.1 hpost_fst_ne
    refine ⟨?_, ?_, ?_, ?_⟩
    · rw [hF, hlF, hs2]
      exact lookup_setAssoc_self _ _ _
    · rw [hF, hvF, hs2]
      exact lookup_setAssoc_self _ _ _
    · rw [hF, hplF, hs2]
      exact lookup_setAssoc_self _ _ _
    · rw [hF]
      refine foldl_deleted_avoid other post _ px.1 ?_ hext_head_tail.2
        hpost_fst_ne ?_ ?_
      · rw [hs2]
        exact hpx_not_s1
      · intro q hq off hoff
        rw [hs2] at hoff
        have hne := hpost_ext_ne q hq
        rw [show ({ pre.foldl (pairStep other) s0 with
            links := setAssoc (pre.foldl (pairStep other) s0).links
              ((externalOf other px.2).getD 0) px.1,
            versions := setAssoc (pre.foldl (pairStep other) s0).versions
              ((externalOf other px.2).getD 0)
              ((other.versions.lookup ((externalOf other px.2).getD 0)).getD 0),
            payloads := setAssoc (pre.foldl (pairStep other) s0).payloads px.1
              ((other.payloads.lookup px.2).getD 0) } : BSegment).links =
          setAssoc (pre.foldl (pairStep other) s0).links
            ((externalOf other px.2).getD 0) px.1 from rfl] at hoff
        rw [lookup_setAssoc_ne _ _ _ _ hne] at hoff
        exact Nat.ne_of_lt (Nat.lt_of_lt_of_le (hm_s1_post q hq off hoff) hpx_base)
      · exact updateStep_lv _ _ _ _ _ hs1lv
  -- case: seen with an older version
  · intro ev h0 hlt
    have h1 : (pre.foldl (pairStep other) s0).versions.lookup
        ((externalOf other px.2).getD 0) = some ev := by rw [hv1, h0]
    obtain ⟨off0, hoff0⟩ := Option.isSome_iff_exists.mp
      (hlv ((externalOf other px.2).getD 0) (by rw [h0]; rfl))
    have hoff0base : off0 < base := hbase _ (lookup_some_mem _ _ _ hoff0)
    have hs2 : pairStep other (pre.foldl (pairStep other) s0) px =
        { pre.foldl (pairStep other) s0 with
            deleted := off0 :: (pre.foldl (pairStep other) s0).deleted,
            links := setAssoc (pre.foldl (pairStep other) s0).links
              ((externalOf other px.2).getD 0) px.1,
            versions := setAssoc (pre.foldl (pairStep other) s0).versions
              ((externalOf other px.2).getD 0)
              ((other.versions.lookup ((externalOf other px.2).getD 0)).getD 0),
            payloads := setAssoc (pre.foldl (pairStep other) s0).payloads px.1
              ((other.payloads.lookup px.2).getD 0) } := by
      have := updateStep_older (pre.foldl (pairStep other) s0) px.1
        ((externalOf other px.2).getD 0)
        ((other.versions.lookup ((externalOf other px.2).getD 0)).getD 0)
        ((other.payloads.lookup px.2).getD 0) ev h1 hlt
      rw [show (pre.foldl (pairStep other) s0).links.lookup
          ((externalOf other px.2).getD 0) = some off0 from by rw [hl1, hoff0]]
        at this
      exact this
    obtain ⟨hlF, hvF⟩ := foldl_frame other post
      (pairStep other (pre.foldl (pairStep other) s0) px)
      ((externalOf other px.2).getD 0) hpost_ext_ne
    have hplF := foldl_payload_frame other post
      (pairStep other (pre.foldl (pairStep other) s0) px) px.1 hpost_fst_ne
    refine ⟨?_, ?_, ?_, ?_, ?_⟩
    · rw [hF, hlF, hs2]
      exact lookup_setAssoc_self _ _ _
    · rw [hF, hvF, hs2]
      exact lookup_setAssoc_self _ _ _
    · rw [hF, hplF, hs2]
      exact lookup_setAssoc_self _ _ _
    · rw [hF]
      refine foldl_deleted_avoid other post _ px.1 ?_ hext_head_tail.2
        hpost_fst_ne ?_ ?_
      · rw [hs2]
        intro hmem
        rcases List.mem_cons.mp hmem with hmem | hmem
        · exact absurd (hmem ▸ hoff0base) (Nat.not_lt.mpr hpx_base)
        · exact hpx_not_s1 hmem
      · intro q hq off hoff
        rw [hs2] at hoff
        have hne := hpost_ext_ne q hq
        rw [show ({ pre.foldl (pairStep other) s0 with
            deleted := off0 :: (pre.foldl (pairStep other) s0).deleted,
            links := setAssoc (pre.foldl (pairStep other) s0).links
              ((externalOf other px.2).getD 0) px.1,
            versions := setAssoc (pre.foldl (pairStep other) s0).versions
              ((externalOf other px.2).getD 0)
              ((other.versions.lookup ((externalOf other px.2).getD 0)).getD 0),
            payloads := setAssoc (pre.foldl (pairStep other) s0).payloads px.1
              ((other.payloads.lookup px.2).getD 0) } : BSegment).links =
          setAssoc (pre.foldl (pairStep other) s0).links
            ((externalOf other px.2).getD 0) px.1 from rfl] at hoff
        rw [lookup_setAssoc_ne _ _ _ _ hne] at hoff
        exact Nat.ne_of_lt (Nat.lt_of_lt_of_le (hm_s1_post q hq off hoff) hpx_base)
      · exact updateStep_lv _ _ _ _ _ hs1lv
    · rw [hF, hoff0]
      apply foldl_deleted_mono
      rw [hs2]
      exact List.mem_cons_self _ _
  -- case: seen with a newer or equal version
  · intro ev h0 hge
    have h1 : (pre.foldl (pairStep other) s0).versions.lookup
        ((externalOf other px.2).getD 0) = some ev := by rw [hv1, h0]
    have hs2 : pairStep other (pre.foldl (pairStep other) s0) px =
        { pre.foldl (pairStep other) s0 with
            deleted := px.1 :: (pre.foldl (pairStep other) s0).deleted } :=
      updateStep_newer _ _ _ _ _ ev h1 (Nat.not_lt.mpr hge)
    obtain ⟨hlF, hvF⟩ := foldl_frame other post
      (pairStep other (pre.foldl (pairStep other) s0) px)
      ((externalOf other px.2).getD 0) hpost_ext_ne
    refine ⟨?_, ?_, ?_, ?_⟩
    · rw [hF, hlF, hs2]
      exact hl1
    · rw [hF, hvF, hs2]
      exact h1
    · intro off hoff
      have hoffbase : off < base := hbase _ (lookup_some_mem _ _ _ hoff)
      have hpost_off : ∀ q ∈ post, q.1 ≠ off := by
        intro q hq heq
        have := hfstge q (List.mem_append_right _ (List.mem_cons_of_mem _ hq))
        omega
      have hpre_off : ∀ q ∈ pre, q.1 ≠ off := by
        intro q hq heq
        have := hfstge q (List.mem_append_left _ hq)
        omega
      rw [hF, foldl_payload_frame other post _ off hpost_off, hs2]
      exact foldl_payload_frame other pre s0 off hpre_off
    · rw [hF]
      apply foldl_deleted_mono
      rw [hs2]
      exact List.mem_cons_self _ _

/-- C4: `SegmentBuilder::update_from` reconciles versions per external
id: for each live source pair (fresh offset `px.1`, source offset
`px.2`) — an id the target never saw is linked to the fresh offset with
the source's version and payload; an id whose recorded version is older
is re-linked the same way and its old offset is tombstoned; an id whose
recorded version is newer or equal keeps all its target data and the
freshly copied vector is tombstoned.  Vectors are bulk-copied to the
fresh offsets.  Concretely, merging segment A (point 42 at version 5)
then segment B (point 42 at version 3) yields a built segment with
`point_version(42) = 5` and A's vector and payload. -/
theorem C4_update_from_version_reconciliation :
    (∀ (self other final : BSegment),
      (∀ e ∈ self.links, e.2 < self.vectors.length) →
      (∀ d ∈ self.deleted, d < self.vectors.length) →
      (∀ x : PointId, (self.versions.lookup x).isSome →
        (self.links.lookup x).isSome) →
      (∀ o ∈ liveOffsets other, (externalOf other o).isSome) →
      (liveExts other).Nodup →
      updateFrom self other false = .ok final →
      ∀ (pre post : List (Nat × Nat)) (px : Nat × Nat),
        (List.range' self.vectors.length (liveOffsets other).length).zip
          (liveOffsets other) = pre ++ px :: post →
        (final.vectors = self.vectors ++
          (liveOffsets other).map (fun o => other.vectors.getD o 0)) ∧
        (self.versions.lookup ((externalOf other px.2).getD 0) = none →
          final.links.lookup ((externalOf other px.2).getD 0) = some px.1 ∧
          final.versions.lookup ((externalOf other px.2).getD 0) =
            some ((other.versions.lookup ((externalOf other px.2).getD 0)).getD 0) ∧
          final.payloads.lookup px.1 =
            some ((other.payloads.lookup px.2).getD 0) ∧
          px.1 ∉ final.deleted) ∧
        (∀ ev, self.versions.lookup ((externalOf other px.2).getD 0) = some ev →
          ev < (other.versions.lookup ((externalOf other px.2).getD 0)).getD 0 →
          final.links.lookup ((externalOf other px.2).getD 0) = some px.1 ∧
          final.versions.lookup ((externalOf other px.2).getD 0) =
            some ((other.versions.lookup ((externalOf other px.2).getD 0)).getD 0) ∧
          final.payloads.lookup px.1 =
            some ((other.payloads.lookup px.2).getD 0) ∧
          px.1 ∉ final.deleted ∧
          (self.links.lookup ((externalOf other px.2).getD 0)).getD 0 ∈
            final.deleted) ∧
        (∀ ev, self.versions.lookup ((externalOf other px.2).getD 0) = some ev →
          (other.versions.lookup ((externalOf other px.2).getD 0)).getD 0 ≤ ev →
          final.links.lookup ((externalOf other px.2).getD 0) =
            self.links.lookup ((externalOf other px.2).getD 0) ∧
          final.versions.lookup ((externalOf other px.2).getD 0) = some ev ∧
          (∀ off, self.links.lookup ((externalOf other px.2).getD 0) = some off →
            final.payloads.lookup off = self.payloads.lookup off) ∧
          px.1 ∈ final.deleted)) ∧
    (updateFrom emptyBSeg segA false = .ok segAmerged ∧
     updateFrom segAmerged segB false = .ok mergedAB ∧
     build ⟨some mergedAB, []⟩ false (.ok ()) (.ok ()) (.ok ()) = (.ok mergedAB, true) ∧
     bPointVersion mergedAB 42 = some 5 ∧
     bVectorOf mergedAB 42 = some 100 ∧ bVectorOf segA 42 = some 100 ∧
     bPayloadOf mergedAB 42 = some 200 ∧ bPayloadOf segA 42 = some 200) := by
  constructor
  · intro self other final hbase hdel hlv hext hnodup hupd pre post px hsplit
    have hlive_lt : ∀ o ∈ liveOffsets other, o < other.vectors.length := by
      intro o ho
      exact List.mem_range.mp (List.mem_of_mem_filter ho)
    have hlooppre : ∀ p ∈ (List.range' self.vectors.length
        (liveOffsets other).length).zip (liveOffsets other),
        (externalOf other p.2).isSome ∧ p.2 < other.vectors.length := by
      intro p hp
      have hsnd := (List.of_mem_zip hp).2
      exact ⟨hext _ hsnd, hlive_lt _ hsnd⟩
    have hfinal : final = ((List.range' self.vectors.length
        (liveOffsets other).length).zip (liveOffsets other)).foldl (pairStep other)
        { self with version := max self.version other.version,
                    vectors := self.vectors ++
                      (liveOffsets other).map (fun o => other.vectors.getD o 0) } := by
      have hloop := updateLoop_ok other
        ((List.range' self.vectors.length (liveOffsets other).length).zip
          (liveOffsets other))
        { self with version := max self.version other.version,
                    vectors := self.vectors ++
                      (liveOffsets other).map (fun o => other.vectors.getD o 0) }
        hlooppre
      simp only [updateFrom] at hupd
      rw [hloop] at hupd
      injection hupd with h
      exact h.symm
    have hlen : (List.range' self.vectors.length
        (liveOffsets other).length).length = (liveOffsets other).length := by simp
    have hfstz : ((List.range' self.vectors.length
        (liveOffsets other).length).zip (liveOffsets other)).map Prod.fst =
        List.range' self.vectors.length (liveOffsets other).length :=
      List.map_fst_zip _ _ (le_of_eq hlen)
    have hsndz : ((List.range' self.vectors.length
        (liveOffsets other).length).zip (liveOffsets other)).map Prod.snd =
        liveOffsets other :=
      List.map_snd_zip _ _ (le_of_eq hlen.symm)
    have hextsz : ((List.range' self.vectors.length
        (liveOffsets other).length).zip (liveOffsets other)).map
          (fun p => (externalOf other p.2).getD 0) = liveExts other := by
      have h1 : ((List.range' self.vectors.length
          (liveOffsets other).length).zip (liveOffsets other)).map
            (fun p => (externalOf other p.2).getD 0) =
          (((List.range' self.vectors.length
            (liveOffsets other).length).zip (liveOffsets other)).map
              Prod.snd).map (fun o => (externalOf other o).getD 0) := by
        rw [List.map_map]
        rfl
      rw [h1, hsndz]
      rfl
    have hfstN : ((pre ++ px :: post).map Prod.fst).Nodup := by
      rw [← hsplit, hfstz]
      exact List.nodup_range' _ _
    have hfstge : ∀ p ∈ pre ++ px :: post, self.vectors.length ≤ p.1 := by
      intro p hp
      rw [← hsplit] at hp
      have h1 : p.1 ∈ ((List.range' self.vectors.length
          (liveOffsets other).length).zip (liveOffsets other)).map Prod.fst :=
        List.mem_map_of_mem _ hp
      rw [hfstz] at h1
      exact (List.mem_range'_1.mp h1).1
    have hextsN : ((pre ++ px :: post).map
        (fun p => (externalOf other p.2).getD 0)).Nodup := by
      rw [← hsplit, hextsz]
      exact hnodup
    have hfinal' : final = (pre ++ px :: post).foldl (pairStep other)
        { self with version := max self.version other.version,
                    vectors := self.vectors ++
                      (liveOffsets other).map (fun o => other.vectors.getD o 0) } := by
      rw [hfinal, hsplit]
    have hchar := merge_fold_characterization other
      { self with version := max self.version other.version,
                  vectors := self.vectors ++
                    (liveOffsets other).map (fun o => other.vectors.getD o 0) }
      pre post px self.vectors.length hfstN hfstge hextsN hbase hdel hlv
    rw [hfinal']
    refine ⟨?_, hchar.1, hchar.2.1, hchar.2.2⟩
    rw [foldl_vectors]
  · refine ⟨by rfl, by rfl, by rfl, by decide, by decide, by decide, by decide,
      by decide⟩

/-- Witness for `C4_update_from_version_reconciliation`: the merge of
`segB` into the target already holding point 42 at version 5 takes the
newer-or-equal branch — point 42 keeps A's data, B's fresh vector
offset 1 is tombstoned. -/
theorem C4_update_from_version_reconciliation_witness :
    mergedAB.links.lookup 42 = segAmerged.links.lookup 42 ∧
    mergedAB.versions.lookup 42 = some 5 ∧
    (1 : Nat) ∈ mergedAB.deleted :=
  have hlv : ∀ x : PointId, (segAmerged.versions.lookup x).isSome →
      (segAmerged.links.lookup x).isSome := by
    intro x h
    rw [show segAmerged.versions = [(42, 5)] from rfl, lookup_cons] at h
    rw [show segAmerged.links = [(42, 0)] from rfl, lookup_cons]
    by_cases hx : x = 42
    · simp [hx]
    · rw [if_neg hx] at h
      simp [List.lookup] at h
  have h := (C4_update_from_version_reconciliation.1 segAmerged segB mergedAB
    (by decide) (by decide) hlv (by decide) (by decide) (by rfl)
    [] [] (1, 0) (by rfl)).2.2.2 5 (by decide) (by decide)
  ⟨h.1, h.2.1, h.2.2.2⟩

end QdrantModel
